import Mathlib

/-!
# A shallow embedding of `gpu.cpp`

The file `src/gpu.cpp` implements the command interpreter of a small software
GPU: `clear`, the three `bind*` setters, `draw`, `setDrawId`, `sub`,
`izg_enqueue` and the texture helpers.  This development embeds those
functions as Lean definitions and proves properties of them.

Conventions of the embedding.

* `float` values are rationals (`ℚ`).  The arithmetic of the two samplers is
  rounded to binary32 operation by operation (`f32`); stores and loads keep a
  float as it is, and the products and quotients by 255 in `clear` and
  `texelFetch` are exact.
* Pixel storage is byte addressed.  A byte is either a raw 8-bit value or one
  of the four bytes of a stored `float`; a `float` can be read back only from
  the four bytes of one store.
* A pointer to pixel storage (`Image::data`) is `none` for `nullptr` and
  `some p` for the storage block `p`; blocks live in `GPUMemory.heap`.
  Every access to a block is bounds checked, and an access outside the block
  makes the operation return `none`, as does indexing an array of `GPUMemory`
  outside its bounds.
* 32-bit unsigned counters are natural numbers reduced modulo `2 ^ 32` where
  the code increments them.
* Widths, heights, pitches, pixel sizes and byte offsets are natural numbers:
  the header that fixes their machine types is not among the sources.
-/

namespace Izg

/-! ## Pixel storage -/

/-- One byte of pixel storage: a raw 8-bit value, or byte number `k` (0 to 3)
of a stored 32-bit float whose value is `v`. -/
inductive MByte where
  | u8 (b : Nat)
  | f32 (v : ℚ) (k : Nat)
  deriving DecidableEq

/-- A block of pixel storage. -/
abbrev Buffer := List MByte

/-- Bounds-checked store of one byte at offset `off`. -/
def writeMByte (buf : Buffer) (off : Nat) (m : MByte) : Option Buffer :=
  if off < buf.length then some (buf.set off m) else none

/-- Store of a `uint8_t` at byte offset `off`. -/
def writeU8 (buf : Buffer) (off : Nat) (b : Nat) : Option Buffer :=
  writeMByte buf off (MByte.u8 b)

/-- Store of a `float` at byte offset `off`: its four bytes, in order. -/
def writeF32 (buf : Buffer) (off : Nat) (v : ℚ) : Option Buffer := do
  let b0 ← writeMByte buf off (MByte.f32 v 0)
  let b1 ← writeMByte b0 (off + 1) (MByte.f32 v 1)
  let b2 ← writeMByte b1 (off + 2) (MByte.f32 v 2)
  writeMByte b2 (off + 3) (MByte.f32 v 3)

/-- Load of a `uint8_t` from byte offset `off`. -/
def readU8 (buf : Buffer) (off : Nat) : Option Nat :=
  match buf[off]? with
  | some (MByte.u8 b) => some b
  | _ => none

/-- Load of a `float` from byte offset `off`: defined when the four bytes are
bytes 0, 1, 2, 3 of one stored float. -/
def readF32 (buf : Buffer) (off : Nat) : Option ℚ :=
  match buf[off]?, buf[off + 1]?, buf[off + 2]?, buf[off + 3]? with
  | some (MByte.f32 v 0), some (MByte.f32 v1 1), some (MByte.f32 v2 2), some (MByte.f32 v3 3) =>
    if v1 = v ∧ v2 = v ∧ v3 = v then some v else none
  | _, _, _, _ => none

/-- Truncation of a float toward zero, the rounding of a conversion from
`float` to an integer type. -/
def truncQ (f : ℚ) : ℤ :=
  if 0 ≤ f then ⌊f⌋ else ⌈f⌉

/-- The conversion `static_cast<uint8_t>(f)`: the fractional part of `f` is
dropped (rounding toward zero) and the integer is reduced to 8 bits.  For an
integer part outside 0..255 C++ leaves the result undefined; the embedding
takes the low 8 bits, as the usual targets do. -/
def castU8 (f : ℚ) : Nat :=
  (truncQ f % 256).toNat

/-- The loop `for (i = 0; i < n; ++i) body(i)` over a state that may fault:
the body runs for `i = 0, 1, ..., n - 1` in this order. -/
def forLoop {σ : Type} (n : Nat) (body : Nat → σ → Option σ) (s : σ) : Option σ :=
  match n with
  | 0 => some s
  | k + 1 => (forLoop k body s).bind (body k)

/-! ## Data model -/

/-- A colour, `glm::vec4` read through its members `r`, `g`, `b`, `a`. -/
structure Vec4 where
  r : ℚ
  g : ℚ
  b : ℚ
  a : ℚ
  deriving DecidableEq

/-- The two channel formats, `Image::UINT8` and `Image::FLOAT32`. -/
inductive Format where
  | UINT8
  | FLOAT32
  deriving DecidableEq

/-- Modelled from the spec: the declaration of `Image` (header
`student/gpu.hpp`) is not among the sources.  An image has pixel storage
(`data`, `none` for a null pointer), a channel count, a channel format, a
per-channel storage order, a pitch in bytes per row and a size in bytes per
pixel. -/
structure Image where
  data : Option Nat
  channels : Nat
  format : Format
  pitch : Nat
  bytesPerPixel : Nat
  channelTypes : Nat → Nat

/-- Modelled from the spec: the declaration of `Framebuffer` is not among the
sources.  A framebuffer has an optional colour image and an optional depth
image sharing one width and height. -/
structure Framebuffer where
  color : Image
  depth : Image
  width : Nat
  height : Nat

/-- Modelled from the spec: the declaration of `ShaderInterface` is not among
the sources; `draw` sets its member `gl_DrawID`. -/
structure ShaderInterface where
  gl_DrawID : Nat
  deriving DecidableEq

/-- Modelled from the spec: the declaration of `InVertex` is not among the
sources.  It carries the input attributes of a vertex; `draw` passes a
default-constructed one. -/
structure InVertex where
  attributes : List ℚ
  deriving DecidableEq

/-- Modelled from the spec: the declaration of `OutVertex` is not among the
sources.  It carries the clip-space position and the interpolable
attributes. -/
structure OutVertex where
  gl_Position : List ℚ
  attributes : List ℚ
  deriving DecidableEq

/-- Modelled from the spec: the declaration of `InFragment` is not among the
sources.  It carries the interpolated attributes of a fragment. -/
structure InFragment where
  attributes : List ℚ
  deriving DecidableEq

/-- Modelled from the spec: the declaration of `OutFragment` is not among the
sources.  It carries the output colour of a fragment. -/
structure OutFragment where
  gl_FragColor : Vec4
  deriving DecidableEq

/-- A vertex shader `vs(outVertex, inVertex, si)`: the output vertex as a
function of the input vertex and the shader interface. -/
abbrev VertexShader := InVertex → ShaderInterface → OutVertex

/-- A fragment shader, in the same style. -/
abbrev FragmentShader := InFragment → ShaderInterface → OutFragment

/-- Modelled from the spec: the declaration of `Program` is not among the
sources.  A program pairs a vertex shader and a fragment shader. -/
structure Program where
  vertexShader : VertexShader
  fragmentShader : FragmentShader

/-- Modelled from the spec: the declaration of `VertexArray` is not among the
sources.  It describes where the attributes of a vertex are fetched from:
for each attribute a buffer, a stride and an offset. -/
structure VertexArray where
  bindings : List (Nat × Nat × Nat)
  deriving DecidableEq

/-- Modelled from the spec: the declaration of `GPUMemory` is not among the
sources.  It holds the arrays of framebuffers, programs and vertex arrays and
the four scalars `activatedFramebuffer`, `activatedProgram`,
`activatedVertexArray`, `gl_DrawID`.  The pixel storage that the images point
to is the field `heap`. -/
structure GPUMemory where
  heap : Nat → Buffer
  framebuffers : List Framebuffer
  programs : List Program
  vertexArrays : List VertexArray
  activatedFramebuffer : Nat
  activatedProgram : Nat
  activatedVertexArray : Nat
  gl_DrawID : Nat

/-! ## Commands -/

/-- Payload of `CLEAR`. -/
structure ClearCommand where
  color : Vec4
  depth : ℚ
  clearColor : Bool
  clearDepth : Bool
  deriving DecidableEq

/-- Payload of `BIND_FRAMEBUFFER`. -/
structure BindFramebufferCommand where
  id : Nat
  deriving DecidableEq

/-- Payload of `BIND_PROGRAM`. -/
structure BindProgramCommand where
  id : Nat
  deriving DecidableEq

/-- Payload of `BIND_VERTEXARRAY`. -/
structure BindVertexArrayCommand where
  id : Nat
  deriving DecidableEq

/-- Payload of `DRAW`. -/
structure DrawCommand where
  nofVertices : Nat
  deriving DecidableEq

/-- Payload of `SET_DRAW_ID`. -/
structure SetDrawIdCommand where
  id : Nat
  deriving DecidableEq

/-- Payload of `SUB_COMMAND`, which is empty. -/
structure SubCommand where
  deriving DecidableEq

/-- The command tags tested by `izg_enqueue`. -/
inductive CommandType where
  | CLEAR
  | BIND_FRAMEBUFFER
  | BIND_PROGRAM
  | BIND_VERTEXARRAY
  | DRAW
  | SET_DRAW_ID
  | SUB_COMMAND
  deriving DecidableEq

/-- The union `CommandData`: one member per command kind.  `izg_enqueue` reads
only the member that belongs to the tag of the command. -/
structure CommandData where
  clearCommand : ClearCommand
  bindFramebufferCommand : BindFramebufferCommand
  bindProgramCommand : BindProgramCommand
  bindVertexArrayCommand : BindVertexArrayCommand
  drawCommand : DrawCommand
  setDrawIdCommand : SetDrawIdCommand
  subCommand : SubCommand
  deriving DecidableEq

/-- A command: its tag and its payload. -/
structure Command where
  type : CommandType
  data : CommandData
  deriving DecidableEq

/-- A command buffer: the commands `commands[0 .. nofCommands - 1]`. -/
abbrev CommandBuffer := List Command

/-- The member `nofCommands` of a command buffer. -/
def CommandBuffer.nofCommands (cb : CommandBuffer) : Nat := cb.length

/-- One call of a vertex shader, as seen from outside: the shader called and
the two inputs it was given. -/
structure VSCall where
  shader : VertexShader
  inVertex : InVertex
  si : ShaderInterface

/-! ## `clear` (gpu.cpp, lines 10 to 76) -/

/-- Body of the colour loops (lines 26 to 50): the stores into pixel `[x, y]`
of the colour image `img`. -/
def clearColorPixel (img : Image) (color : Vec4) (x y : Nat) (buf : Buffer) : Option Buffer :=
  let pixelStart := y * img.pitch + x * img.bytesPerPixel
  if img.format = Format.FLOAT32 then do
    let b0 ← writeF32 buf (pixelStart + 4 * 0) color.r
    let b1 ← writeF32 b0 (pixelStart + 4 * 1) color.g
    let b2 ← writeF32 b1 (pixelStart + 4 * 2) color.b
    writeF32 b2 (pixelStart + 4 * 3) color.a
  else if img.format = Format.UINT8 then do
    let b0 ← writeU8 buf (pixelStart + 0) (castU8 (color.r * 255))
    let b1 ← writeU8 b0 (pixelStart + 1) (castU8 (color.g * 255))
    let b2 ← writeU8 b1 (pixelStart + 2) (castU8 (color.b * 255))
    writeU8 b2 (pixelStart + 3) (castU8 (color.a * 255))
  else
    some buf

/-- Body of the depth loops (lines 67 to 71): the store into pixel `[x, y]`
of the depth image `img`. -/
def clearDepthPixel (img : Image) (depth : ℚ) (x y : Nat) (buf : Buffer) : Option Buffer :=
  let pixelStart := y * img.pitch + x * img.bytesPerPixel
  writeF32 buf pixelStart depth

/-- The colour loops (lines 22 to 52) over the storage of the colour image. -/
def clearColorLoops (fbo : Framebuffer) (color : Vec4) (buf : Buffer) : Option Buffer :=
  forLoop fbo.height
    (fun y b => forLoop fbo.width (fun x b1 => clearColorPixel fbo.color color x y b1) b) buf

/-- The depth loops (lines 63 to 73) over the storage of the depth image. -/
def clearDepthLoops (fbo : Framebuffer) (depth : ℚ) (buf : Buffer) : Option Buffer :=
  forLoop fbo.height
    (fun y b => forLoop fbo.width (fun x b1 => clearDepthPixel fbo.depth depth x y b1) b) buf

/-- The colour part of `clear` (lines 16 to 54): when `cmd.clearColor` holds
and the colour image of the active framebuffer has storage, the colour loops
run over that storage. -/
def clearColorPart (mem : GPUMemory) (cmd : ClearCommand) : Option GPUMemory :=
  if cmd.clearColor then do
    let fbo ← mem.framebuffers[mem.activatedFramebuffer]?
    match fbo.color.data with
    | none => some mem
    | some p => do
      let buf ← clearColorLoops fbo cmd.color (mem.heap p)
      some { mem with heap := Function.update mem.heap p buf }
  else
    some mem

/-- The depth part of `clear` (lines 57 to 75): when `cmd.clearDepth` holds
and the depth image of the active framebuffer has storage, the depth loops
run over that storage. -/
def clearDepthPart (mem : GPUMemory) (cmd : ClearCommand) : Option GPUMemory :=
  if cmd.clearDepth then do
    let fbo ← mem.framebuffers[mem.activatedFramebuffer]?
    match fbo.depth.data with
    | none => some mem
    | some p => do
      let buf ← clearDepthLoops fbo cmd.depth (mem.heap p)
      some { mem with heap := Function.update mem.heap p buf }
  else
    some mem

/-- The function `clear`: the colour part, then the depth part. -/
def clear (mem : GPUMemory) (cmd : ClearCommand) : Option GPUMemory :=
  (clearColorPart mem cmd).bind (fun mem1 => clearDepthPart mem1 cmd)

/-! ## The setters (lines 78 to 91 and 106 to 113) -/

/-- The function `bindFramebuffer`. -/
def bindFramebuffer (mem : GPUMemory) (cmd : BindFramebufferCommand) : GPUMemory :=
  { mem with activatedFramebuffer := cmd.id }

/-- The function `bindProgram`. -/
def bindProgram (mem : GPUMemory) (cmd : BindProgramCommand) : GPUMemory :=
  { mem with activatedProgram := cmd.id }

/-- The function `bindVertexArray`. -/
def bindVertexArray (mem : GPUMemory) (cmd : BindVertexArrayCommand) : GPUMemory :=
  { mem with activatedVertexArray := cmd.id }

/-- The function `setDrawId`. -/
def setDrawId (mem : GPUMemory) (cmd : SetDrawIdCommand) : GPUMemory :=
  { mem with gl_DrawID := cmd.id }

/-- The function `sub`, whose body is empty. -/
def sub (mem : GPUMemory) (_cmd : SubCommand) : GPUMemory :=
  mem

/-! ## `draw` (lines 93 to 104) -/

/-- The function `draw`: it reads the vertex shader of the active program and
calls it `cmd.nofVertices` times, each time on a default-constructed
`InVertex` and a `ShaderInterface` whose `gl_DrawID` is the one of `mem`; the
outputs are dropped.  The result is the memory after the call and the list of
shader calls made, in order. -/
def draw (mem : GPUMemory) (cmd : DrawCommand) : Option (GPUMemory × List VSCall) := do
  let prog ← mem.programs[mem.activatedProgram]?
  let vs := prog.vertexShader
  let calls ← forLoop cmd.nofVertices
    (fun _i log =>
      let inVertex : InVertex := { attributes := [] }
      let si : ShaderInterface := { gl_DrawID := mem.gl_DrawID }
      some (log ++ [{ shader := vs, inVertex := inVertex, si := si }])) []
  some (mem, calls)

/-! ## `izg_enqueue` (lines 116 to 148) -/

/-- Body of the loop of `izg_enqueue` (lines 128 to 146) for the command `c`:
the chain of tests on the tag.  The state is the memory and the shader calls
made so far. -/
def runCommand (c : Command) (st : GPUMemory × List VSCall) :
    Option (GPUMemory × List VSCall) := do
  let type := c.type
  let data := c.data
  let m1 ← if type = CommandType.CLEAR then clear st.1 data.clearCommand else some st.1
  let m2 := if type = CommandType.BIND_FRAMEBUFFER then
    bindFramebuffer m1 data.bindFramebufferCommand else m1
  let m3 := if type = CommandType.BIND_PROGRAM then
    bindProgram m2 data.bindProgramCommand else m2
  let m4 := if type = CommandType.BIND_VERTEXARRAY then
    bindVertexArray m3 data.bindVertexArrayCommand else m3
  let st5 ← if type = CommandType.DRAW then do
      let r ← draw m4 data.drawCommand
      some ({ r.1 with gl_DrawID := (r.1.gl_DrawID + 1) % 2 ^ 32 }, st.2 ++ r.2)
    else some (m4, st.2)
  let m6 := if type = CommandType.SET_DRAW_ID then
    setDrawId st5.1 data.setDrawIdCommand else st5.1
  let m7 := if type = CommandType.SUB_COMMAND then sub m6 data.subCommand else m6
  some (m7, st5.2)

/-- The function `izg_enqueue`: `gl_DrawID` is set to 0, then the commands
`cb[0], ..., cb[nofCommands - 1]` are run in order.  Reading a command
outside the buffer faults. -/
def izg_enqueue (mem : GPUMemory) (cb : CommandBuffer) : Option (GPUMemory × List VSCall) :=
  forLoop cb.nofCommands
    (fun i st => match cb[i]? with
      | some c => runCommand c st
      | none => none)
    ({ mem with gl_DrawID := 0 }, [])

/-! ## Textures (lines 151 to 216) -/

/-- A pair of floats, `glm::vec2`. -/
structure Vec2 where
  x : ℚ
  y : ℚ
  deriving DecidableEq

/-- An integer pixel, `glm::uvec2`: a pair of unsigned 32-bit values. -/
structure UVec2 where
  x : Nat
  y : Nat
  deriving DecidableEq

/-- Modelled from the spec: the declaration of `Texture` is not among the
sources.  A texture wraps an image and has a width and a height of its
own. -/
structure Texture where
  img : Image
  width : Nat
  height : Nat

/-- Component `c` of a colour, `color[c]` read; 0 for an index outside
0..3. -/
def Vec4.get (v : Vec4) (c : Nat) : ℚ :=
  match c with
  | 0 => v.r
  | 1 => v.g
  | 2 => v.b
  | 3 => v.a
  | _ => 0

/-- The assignment `color[c] = f`; an index outside 0..3 faults. -/
def Vec4.set (v : Vec4) (c : Nat) (f : ℚ) : Option Vec4 :=
  match c with
  | 0 => some { v with r := f }
  | 1 => some { v with g := f }
  | 2 => some { v with b := f }
  | 3 => some { v with a := f }
  | _ => none

/-- A pointer into pixel storage: the storage block, `none` for a pointer
derived from `nullptr`, and a byte offset. -/
structure PixelPtr where
  block : Option Nat
  off : Nat
  deriving DecidableEq

/-- Modelled from the spec: the helper `getPixel` is not among the sources.
Pixel `[x, y]` of an image starts at `data + y * pitch + x * bytesPerPixel`. -/
def getPixel (img : Image) (x y : Nat) : PixelPtr :=
  { block := img.data, off := y * img.pitch + x * img.bytesPerPixel }

/-- The load `colorPtr[k]` through a `uint8_t` pointer; a load through a
pointer derived from `nullptr` faults. -/
def loadU8 (heap : Nat → Buffer) (ptr : PixelPtr) (k : Nat) : Option Nat :=
  match ptr.block with
  | none => none
  | some p => readU8 (heap p) (ptr.off + k)

/-- The load `colorPtr[k]` through a `float` pointer. -/
def loadF32 (heap : Nat → Buffer) (ptr : PixelPtr) (k : Nat) : Option ℚ :=
  match ptr.block with
  | none => none
  | some p => readF32 (heap p) (ptr.off + 4 * k)

/-- The part of `texelFetch` after the bounds test (lines 203 to 215): the
loop over the channels of a UINT8 image, then the one of a FLOAT32 image. -/
def texelRead (heap : Nat → Buffer) (texture : Texture) (pix : UVec2) : Option Vec4 := do
  let img := texture.img
  let color : Vec4 := { r := 0, g := 0, b := 0, a := 1 }
  let color1 ← if img.format = Format.UINT8 then
      let colorPtr := getPixel img pix.x pix.y
      forLoop img.channels
        (fun c col => do
          let b ← loadU8 heap colorPtr (img.channelTypes c)
          col.set c ((b : ℚ) / 255)) color
    else some color
  let color2 ← if texture.img.format = Format.FLOAT32 then
      let colorPtr := getPixel img pix.x pix.y
      forLoop img.channels
        (fun c col => do
          let f ← loadF32 heap colorPtr (img.channelTypes c)
          col.set c f) color1
    else some color1
  some color2

/-- The function `texelFetch`: the colour `(0, 0, 0, 1)` for a pixel outside
the texture, the channels read from the storage otherwise. -/
def texelFetch (heap : Nat → Buffer) (texture : Texture) (pix : UVec2) : Option Vec4 :=
  let color : Vec4 := { r := 0, g := 0, b := 0, a := 1 }
  if pix.x ≥ texture.width ∨ pix.y ≥ texture.height then
    some color
  else
    texelRead heap texture pix

/-! ### Binary32 arithmetic of the samplers

The samplers compute with `float`.  An arithmetic operation yields its exact
result rounded to binary32, to nearest with ties to even, and the operations
are rounded one by one.  The values that occur lie between 0 and `2 ^ 32`, so
no operation overflows. -/

/-- The spacing of the binary32 values around `x`: `2 ^ (e - 23)` for the
exponent `e` of `x`, which is `floor (log2 |x|)` and at least `-126`. -/
def f32Quantum (x : ℚ) : ℚ :=
  (2 : ℚ) ^ (max (Int.log 2 |x|) (-126) - 23)

/-- The integer nearest to `r`, the even one of the two when `r` lies half
way between two integers. -/
def roundEven (r : ℚ) : ℤ :=
  if r - ⌊r⌋ < 1 / 2 then ⌊r⌋
  else if 1 / 2 < r - ⌊r⌋ then ⌊r⌋ + 1
  else if ⌊r⌋ % 2 = 0 then ⌊r⌋
  else ⌊r⌋ + 1

/-- The binary32 value of an exact result `x`: `x` rounded to the nearest
multiple of the spacing at `x`, ties to even. -/
def f32 (x : ℚ) : ℚ :=
  (roundEven (x / f32Quantum x) : ℚ) * f32Quantum x

/-- The function `glm::fract`: `f - floor f`, where the floor is exact and the
difference is rounded. -/
def fract (f : ℚ) : ℚ :=
  f32 (f - ⌊f⌋)

/-- The function `glm::clamp` with the bounds 0 and 1. -/
def clamp01 (f : ℚ) : ℚ :=
  min (max f 0) 1

/-- The conversion of a float to a component of `glm::uvec2`: truncation
toward zero, reduced to 32 bits. -/
def castU32 (f : ℚ) : Nat :=
  (truncQ f % 2 ^ 32).toNat

/-- One component of `glm::fract(glm::fract(uv) + 1.f)` (line 164): the
coordinate is wrapped, 1 is added, and the sum is wrapped again. -/
def wrapCoord (f : ℚ) : ℚ :=
  fract (f32 (fract f + 1))

/-- One component of `uv1 * glm::vec2(width - 1, height - 1) + 0.5f` (lines
165 and 184) for the size `n` of the texture in that direction: `n - 1` is
converted to a float, then multiplied by the coordinate, then 0.5 is added.
For a size of 0 the C++ value of `n - 1` depends on the type of the size; the
pixel is outside such a texture whatever it is. -/
def scaleCoord (uv1 : ℚ) (n : Nat) : ℚ :=
  f32 (f32 (uv1 * f32 ((n - 1 : Nat) : ℚ)) + 1 / 2)

/-- The pixel that `read_texture` and `read_textureClamp` compute from the
coordinates `uv1` (lines 165 to 166 and 184 to 185): the scaled coordinates
converted to integers. -/
def scalePixel (texture : Texture) (uv1 : Vec2) : UVec2 :=
  { x := castU32 (scaleCoord uv1.x texture.width),
    y := castU32 (scaleCoord uv1.y texture.height) }

/-- The pixel that `read_texture` passes to `texelFetch`. -/
def wrapPixel (texture : Texture) (uv : Vec2) : UVec2 :=
  let uv1 : Vec2 := { x := wrapCoord uv.x, y := wrapCoord uv.y }
  scalePixel texture uv1

/-- The pixel that `read_textureClamp` passes to `texelFetch`. -/
def clampPixel (texture : Texture) (uv : Vec2) : UVec2 :=
  let uv1 : Vec2 := { x := clamp01 uv.x, y := clamp01 uv.y }
  scalePixel texture uv1

/-- The function `read_texture`. -/
def read_texture (heap : Nat → Buffer) (texture : Texture) (uv : Vec2) : Option Vec4 :=
  if texture.img.data = none then
    some { r := 0, g := 0, b := 0, a := 0 }
  else
    texelFetch heap texture (wrapPixel texture uv)

/-- The function `read_textureClamp`. -/
def read_textureClamp (heap : Nat → Buffer) (texture : Texture) (uv : Vec2) : Option Vec4 :=
  if texture.img.data = none then
    some { r := 0, g := 0, b := 0, a := 0 }
  else
    texelFetch heap texture (clampPixel texture uv)

/-! ## Specification vocabulary and example states -/

/-- The operation `f` stores the bytes `pat` at the offsets
`off, off + 1, ...` of a block: whenever they fit into the block it succeeds,
keeps the size of the block, leaves the bytes `pat` there and leaves every
byte outside that range as it was. -/
def StoresAt (f : Buffer → Option Buffer) (off : Nat) (pat : List MByte) : Prop :=
  ∀ buf : Buffer, off + pat.length ≤ buf.length →
    ∃ buf1, f buf = some buf1 ∧ buf1.length = buf.length ∧
      (∀ k, k < pat.length → buf1[off + k]? = pat[k]?) ∧
      (∀ i, i < off ∨ off + pat.length ≤ i → buf1[i]? = buf[i]?)

/-- The four bytes of a stored float. -/
def f32Bytes (v : ℚ) : List MByte :=
  [MByte.f32 v 0, MByte.f32 v 1, MByte.f32 v 2, MByte.f32 v 3]

/-- The bytes that `clearColorPixel` stores into one pixel. -/
def colorBytes (img : Image) (color : Vec4) : List MByte :=
  if img.format = Format.FLOAT32 then
    f32Bytes color.r ++ f32Bytes color.g ++ f32Bytes color.b ++ f32Bytes color.a
  else
    [MByte.u8 (castU8 (color.r * 255)), MByte.u8 (castU8 (color.g * 255)),
      MByte.u8 (castU8 (color.b * 255)), MByte.u8 (castU8 (color.a * 255))]

/-- Number of bytes that `clear` stores into one colour pixel: four floats or
four bytes. -/
def colorStoreSize (img : Image) : Nat :=
  if img.format = Format.FLOAT32 then 16 else 4

/-- The colour image of `fbo`, when it has storage, satisfies the size
invariant of an image: a pixel has room for what `clear` stores, a row of
`width` pixels fits into the pitch and `height` rows fit into the storage. -/
def ColorSized (heap : Nat → Buffer) (fbo : Framebuffer) : Prop :=
  ∀ p, fbo.color.data = some p →
    colorStoreSize fbo.color ≤ fbo.color.bytesPerPixel ∧
    fbo.width * fbo.color.bytesPerPixel ≤ fbo.color.pitch ∧
    fbo.height * fbo.color.pitch ≤ (heap p).length

/-- The depth image of `fbo`, when it has storage, satisfies the size
invariant of an image, a pixel being one float. -/
def DepthSized (heap : Nat → Buffer) (fbo : Framebuffer) : Prop :=
  ∀ q, fbo.depth.data = some q →
    4 ≤ fbo.depth.bytesPerPixel ∧
    fbo.width * fbo.depth.bytesPerPixel ≤ fbo.depth.pitch ∧
    fbo.height * fbo.depth.pitch ≤ (heap q).length

/-- The byte that the claim of clamping describes: the product is clamped to
the range 0 to 255 and then truncated. -/
def clampedByte (v : ℚ) : Nat :=
  (truncQ (min (max (v * 255) 0) 255)).toNat

/-- A block of `n` zero bytes. -/
def zeroBlock (n : Nat) : Buffer := List.replicate n (MByte.u8 0)

/-- An image without storage. -/
def noImage : Image :=
  { data := none, channels := 0, format := Format.UINT8, pitch := 0, bytesPerPixel := 0,
    channelTypes := fun c => c }

/-- A 2 by 2 framebuffer: FLOAT32 colour in block 1, depth in block 2. -/
def exFbFloat : Framebuffer :=
  { color := { data := some 1, channels := 4, format := Format.FLOAT32, pitch := 32,
               bytesPerPixel := 16, channelTypes := fun c => c },
    depth := { data := some 2, channels := 1, format := Format.FLOAT32, pitch := 8,
               bytesPerPixel := 4, channelTypes := fun c => c },
    width := 2, height := 2 }

/-- A 1 by 1 framebuffer: UINT8 colour in block 3, no depth image. -/
def exFbByte : Framebuffer :=
  { color := { data := some 3, channels := 4, format := Format.UINT8, pitch := 4,
               bytesPerPixel := 4, channelTypes := fun c => c },
    depth := noImage, width := 1, height := 1 }

/-- A 1 by 1 framebuffer: no colour image, depth in block 4. -/
def exFbDepthOnly : Framebuffer :=
  { color := noImage,
    depth := { data := some 4, channels := 1, format := Format.FLOAT32, pitch := 4,
               bytesPerPixel := 4, channelTypes := fun c => c },
    width := 1, height := 1 }

/-- The storage blocks of the example states. -/
def exHeap : Nat → Buffer := fun q =>
  if q = 1 then zeroBlock 64 else if q = 2 then zeroBlock 16
  else if q = 3 then zeroBlock 4 else if q = 4 then zeroBlock 4 else []

/-- A program whose shaders return constants; the fragment colour is
`(1, 0, 0, 1)`. -/
def exProgram : Program :=
  { vertexShader := fun _ _ => { gl_Position := [0, 0, 0, 1], attributes := [] },
    fragmentShader := fun _ _ => { gl_FragColor := { r := 1, g := 0, b := 0, a := 1 } } }

/-- A memory with the three example framebuffers and the one program;
framebuffer `fb` is active. -/
def exMem (fb : Nat) : GPUMemory :=
  { heap := exHeap, framebuffers := [exFbFloat, exFbByte, exFbDepthOnly],
    programs := [exProgram], vertexArrays := [],
    activatedFramebuffer := fb, activatedProgram := 0, activatedVertexArray := 0,
    gl_DrawID := 7 }

/-- A clear command for the colour `(r, g, b, a)` and the depth `d`. -/
def exClear (r g b a d : ℚ) (cc cd : Bool) : ClearCommand :=
  { color := { r := r, g := g, b := b, a := a }, depth := d, clearColor := cc, clearDepth := cd }

/-- Every framebuffer of the memory has well-sized images. -/
def AllSized (mem : GPUMemory) : Prop :=
  ∀ (i : Nat) (fb : Framebuffer), mem.framebuffers[i]? = some fb →
    ColorSized mem.heap fb ∧ DepthSized mem.heap fb

/-- Framebuffer `fb` uses the storage block `q` for its colour or depth. -/
def Framebuffer.Uses (fb : Framebuffer) (q : Nat) : Prop :=
  fb.color.data = some q ∨ fb.depth.data = some q

/-- The shader call that `draw` repeats. -/
def drawCall (mem : GPUMemory) (prog : Program) : VSCall :=
  { shader := prog.vertexShader, inVertex := { attributes := [] },
    si := { gl_DrawID := mem.gl_DrawID } }

/-- A 4 by 4 framebuffer: FLOAT32 colour in block 1, depth in block 2. -/
def exFb4 : Framebuffer :=
  { color := { data := some 1, channels := 4, format := Format.FLOAT32, pitch := 64,
               bytesPerPixel := 16, channelTypes := fun c => c },
    depth := { data := some 2, channels := 1, format := Format.FLOAT32, pitch := 16,
               bytesPerPixel := 4, channelTypes := fun c => c },
    width := 4, height := 4 }

/-- A memory with the 4 by 4 framebuffer and the one program `prog`. -/
def exMem4 (prog : Program) : GPUMemory :=
  { heap := fun q => if q = 1 then zeroBlock 256 else if q = 2 then zeroBlock 64 else [],
    framebuffers := [exFb4], programs := [prog], vertexArrays := [],
    activatedFramebuffer := 0, activatedProgram := 0, activatedVertexArray := 0,
    gl_DrawID := 0 }

/-- The id of the last `SET_DRAW_ID` command of the buffer, 0 if it has
none. -/
def lastSetDrawId (cb : CommandBuffer) : Nat :=
  match cb.reverse.find? (fun c => decide (c.type = CommandType.SET_DRAW_ID)) with
  | some c => c.data.setDrawIdCommand.id
  | none => 0

/-- The commands that come after the last `SET_DRAW_ID` command of the
buffer: all commands if it has none. -/
def afterLastSetDrawId (cb : CommandBuffer) : List Command :=
  (cb.reverse.takeWhile (fun c => decide (c.type ≠ CommandType.SET_DRAW_ID))).reverse

/-- The number of `DRAW` commands in a list of commands. -/
def nofDraws (l : List Command) : Nat :=
  l.countP (fun c => decide (c.type = CommandType.DRAW))

/-- The draw id that the contract of `izg_enqueue` announces: `(b + k)` modulo
`2 ^ 32` for the id `b` of the last `SET_DRAW_ID` and the number `k` of `DRAW`
commands after it. -/
def expectedDrawID (cb : CommandBuffer) : Nat :=
  (lastSetDrawId cb + nofDraws (afterLastSetDrawId cb)) % 2 ^ 32

/-- The draw id after the command `c`, from the draw id `d` before it. -/
def nextDrawID (c : Command) (d : Nat) : Nat :=
  if c.type = CommandType.DRAW then (d + 1) % 2 ^ 32
  else if c.type = CommandType.SET_DRAW_ID then c.data.setDrawIdCommand.id
  else d

/-- The ids of the bind commands are indices of the arrays of `mem`. -/
def CommandOK (mem : GPUMemory) (c : Command) : Prop :=
  (c.type = CommandType.BIND_FRAMEBUFFER →
    c.data.bindFramebufferCommand.id < mem.framebuffers.length) ∧
  (c.type = CommandType.BIND_PROGRAM → c.data.bindProgramCommand.id < mem.programs.length)

/-- A memory and a command buffer that `izg_enqueue` can run: the images are
well sized, a framebuffer and a program are active, and the buffer binds
existing framebuffers and programs only. -/
def Runnable (mem : GPUMemory) (cb : CommandBuffer) : Prop :=
  AllSized mem ∧ mem.activatedFramebuffer < mem.framebuffers.length ∧
  mem.activatedProgram < mem.programs.length ∧ ∀ c ∈ cb, CommandOK mem c

/-- The state of `izg_enqueue` has the arrays of `mem`, blocks of the sizes of
`mem`, an active framebuffer and an active program. -/
def StateOK (mem : GPUMemory) (st : GPUMemory × List VSCall) : Prop :=
  st.1.framebuffers = mem.framebuffers ∧ st.1.programs = mem.programs ∧
  (∀ q, (st.1.heap q).length = (mem.heap q).length) ∧
  st.1.activatedFramebuffer < mem.framebuffers.length ∧
  st.1.activatedProgram < mem.programs.length

/-- A payload whose members are all zero. -/
def noData : CommandData :=
  { clearCommand := exClear 0 0 0 0 0 false false, bindFramebufferCommand := { id := 0 },
    bindProgramCommand := { id := 0 }, bindVertexArrayCommand := { id := 0 },
    drawCommand := { nofVertices := 0 }, setDrawIdCommand := { id := 0 }, subCommand := {} }

/-- A command buffer: clear, draw, set the draw id to 7, bind framebuffer 1,
draw twice, sub-command. -/
def exBuffer : CommandBuffer :=
  [{ type := CommandType.CLEAR,
     data := { noData with clearCommand := exClear 1 1 1 1 0 true true } },
   { type := CommandType.DRAW, data := { noData with drawCommand := { nofVertices := 3 } } },
   { type := CommandType.SET_DRAW_ID, data := { noData with setDrawIdCommand := { id := 7 } } },
   { type := CommandType.BIND_FRAMEBUFFER,
     data := { noData with bindFramebufferCommand := { id := 1 } } },
   { type := CommandType.DRAW, data := { noData with drawCommand := { nofVertices := 3 } } },
   { type := CommandType.DRAW, data := { noData with drawCommand := { nofVertices := 6 } } },
   { type := CommandType.SUB_COMMAND, data := noData }]

/-- The bytes of a 4 by 1 UINT8 texture with four channels: texel `i` holds
`10 * (i + 1) + c` in channel `c`. -/
def exTexBlock : Buffer :=
  [10, 11, 12, 13, 20, 21, 22, 23, 30, 31, 32, 33, 40, 41, 42, 43].map MByte.u8

/-- A 4 by 1 UINT8 texture with four channels in block 5. -/
def exTexture : Texture :=
  { img := { data := some 5, channels := 4, format := Format.UINT8, pitch := 16,
             bytesPerPixel := 4, channelTypes := fun c => c },
    width := 4, height := 1 }

/-- A heap that holds the example texture and nothing else. -/
def exTexHeap : Nat → Buffer := fun q =>
  if q = 5 then exTexBlock else []

/-- A 1 by 1 UINT8 texture with four channels whose image has no storage. -/
def exTexNull : Texture :=
  { img := { data := none, channels := 4, format := Format.UINT8, pitch := 4,
             bytesPerPixel := 4, channelTypes := fun c => c },
    width := 1, height := 1 }

/-- A 1 by 1 FLOAT32 texture with two channels in block 6, stored in the
order channel 1, channel 0. -/
def exTexFloat : Texture :=
  { img := { data := some 6, channels := 2, format := Format.FLOAT32, pitch := 8,
             bytesPerPixel := 8, channelTypes := fun c => 1 - c },
    width := 1, height := 1 }

/-- A heap that holds the storage of `exTexFloat`: the floats `1/4` and
`3/4`. -/
def exFloatHeap : Nat → Buffer := fun q =>
  if q = 6 then f32Bytes (1 / 4) ++ f32Bytes (3 / 4) else []

/-- Texel `i` of a row of `n` texels is one whose centre `(i + 0.5) / n` is
nearest to the coordinate `f`. -/
def IsNearestTexel (n : Nat) (f : ℚ) (i : Nat) : Prop :=
  i < n ∧ ∀ k : Nat, k < n → |((i : ℚ) + 1 / 2) / n - f| ≤ |((k : ℚ) + 1 / 2) / n - f|

/-- A 1 by 1 framebuffer whose colour image has one UINT8 channel, one byte
per pixel, in block 7; no depth image. -/
def exFbGray : Framebuffer :=
  { color := { data := some 7, channels := 1, format := Format.UINT8, pitch := 1,
               bytesPerPixel := 1, channelTypes := fun c => c },
    depth := noImage, width := 1, height := 1 }

/-- A memory with the one-channel framebuffer, whose colour storage is one
byte. -/
def exMemGray : GPUMemory :=
  { heap := fun q => if q = 7 then zeroBlock 1 else [],
    framebuffers := [exFbGray], programs := [exProgram], vertexArrays := [],
    activatedFramebuffer := 0, activatedProgram := 0, activatedVertexArray := 0,
    gl_DrawID := 0 }

/-- The value `b` is a binary32 value: a multiple of the spacing at `b`. -/
def IsF32 (b : ℚ) : Prop :=
  ∃ m : ℤ, b = (m : ℚ) * f32Quantum b

/-- A texture 8388610 texels wide and 1 texel high whose image has storage,
block 8. -/
def exWideTexture : Texture :=
  { img := { data := some 8, channels := 4, format := Format.UINT8, pitch := 33554440,
             bytesPerPixel := 4, channelTypes := fun c => c },
    width := 8388610, height := 1 }

/-! ## Theorems -/

theorem storesAt_writeMByte (off : Nat) (m : MByte) :
    StoresAt (fun b => writeMByte b off m) off [m] := by
  intro buf h
  simp only [List.length_singleton] at h
  refine ⟨buf.set off m, ?_, ?_, ?_, ?_⟩
  · simp only [writeMByte]
    rw [if_pos (by omega)]
  · simp
  · intro k hk
    simp only [List.length_singleton] at hk
    have hk0 : k = 0 := by omega
    subst hk0
    simp only [Nat.add_zero]
    rw [List.getElem?_set_self (by omega)]
    rfl
  · intro i hi
    simp only [List.length_singleton] at hi
    rw [List.getElem?_set_ne (by omega)]

theorem storesAt_bind {f g : Buffer → Option Buffer} {off : Nat} {p1 p2 : List MByte}
    (hf : StoresAt f off p1) (hg : StoresAt g (off + p1.length) p2) :
    StoresAt (fun b => (f b).bind g) off (p1 ++ p2) := by
  intro buf h
  simp only [List.length_append] at h
  obtain ⟨b1, hfb, hl1, hw1, hk1⟩ := hf buf (by omega)
  obtain ⟨b2, hgb, hl2, hw2, hk2⟩ := hg b1 (by omega)
  refine ⟨b2, ?_, ?_, ?_, ?_⟩
  · simp only [hfb, Option.some_bind, hgb]
  · omega
  · intro k hk
    simp only [List.length_append] at hk
    by_cases hlt : k < p1.length
    · rw [hk2 (off + k) (Or.inl (by omega)), hw1 k hlt, List.getElem?_append_left hlt]
    · have hsplit : off + k = off + p1.length + (k - p1.length) := by omega
      rw [hsplit, hw2 (k - p1.length) (by omega), List.getElem?_append_right (by omega)]
  · intro i hi
    simp only [List.length_append] at hi
    rw [hk2 i (by omega), hk1 i (by omega)]

theorem StoresAt.congr {f g : Buffer → Option Buffer} {off off1 : Nat} {pat : List MByte}
    (hf : StoresAt f off pat) (hfg : ∀ b, g b = f b) (ho : off1 = off) :
    StoresAt g off1 pat := by
  subst ho
  intro buf h
  rw [hfg]
  exact hf buf h

theorem storesAt_writeF32 (off : Nat) (v : ℚ) :
    StoresAt (fun b => writeF32 b off v) off (f32Bytes v) := by
  have h0 := storesAt_writeMByte off (MByte.f32 v 0)
  have h1 := storesAt_writeMByte (off + 1) (MByte.f32 v 1)
  have h2 := storesAt_writeMByte (off + 2) (MByte.f32 v 2)
  have h3 := storesAt_writeMByte (off + 3) (MByte.f32 v 3)
  have h01 := storesAt_bind h0 (h1.congr (fun _ => rfl) (by simp))
  have h012 := storesAt_bind h01 (h2.congr (fun _ => rfl) (by simp))
  have h0123 := storesAt_bind h012 (h3.congr (fun _ => rfl) (by simp))
  exact h0123.congr (fun b => by simp [writeF32, Option.bind_eq_bind, Option.bind_assoc]) rfl

theorem storesAt_clearColorPixel (img : Image) (color : Vec4) (x y : Nat) :
    StoresAt (clearColorPixel img color x y) (y * img.pitch + x * img.bytesPerPixel)
      (colorBytes img color) := by
  cases hfmt : img.format
  · -- UINT8
    have h0 := storesAt_writeMByte (y * img.pitch + x * img.bytesPerPixel)
      (MByte.u8 (castU8 (color.r * 255)))
    have h1 := storesAt_writeMByte (y * img.pitch + x * img.bytesPerPixel + 1)
      (MByte.u8 (castU8 (color.g * 255)))
    have h2 := storesAt_writeMByte (y * img.pitch + x * img.bytesPerPixel + 2)
      (MByte.u8 (castU8 (color.b * 255)))
    have h3 := storesAt_writeMByte (y * img.pitch + x * img.bytesPerPixel + 3)
      (MByte.u8 (castU8 (color.a * 255)))
    have h01 := storesAt_bind h0 (h1.congr (fun _ => rfl) (by simp))
    have h012 := storesAt_bind h01 (h2.congr (fun _ => rfl) (by simp))
    have h0123 := storesAt_bind h012 (h3.congr (fun _ => rfl) (by simp))
    have hpat : colorBytes img color =
        [MByte.u8 (castU8 (color.r * 255))] ++ [MByte.u8 (castU8 (color.g * 255))] ++
          [MByte.u8 (castU8 (color.b * 255))] ++ [MByte.u8 (castU8 (color.a * 255))] := by
      simp [colorBytes, hfmt]
    rw [hpat]
    exact h0123.congr
      (fun b => by simp [clearColorPixel, hfmt, writeU8, Option.bind_eq_bind, Option.bind_assoc])
      rfl
  · -- FLOAT32
    have h0 := storesAt_writeF32 (y * img.pitch + x * img.bytesPerPixel) color.r
    have h1 := storesAt_writeF32 (y * img.pitch + x * img.bytesPerPixel + 4) color.g
    have h2 := storesAt_writeF32 (y * img.pitch + x * img.bytesPerPixel + 8) color.b
    have h3 := storesAt_writeF32 (y * img.pitch + x * img.bytesPerPixel + 12) color.a
    have h01 := storesAt_bind h0 (h1.congr (fun _ => rfl) (by simp [f32Bytes]))
    have h012 := storesAt_bind h01 (h2.congr (fun _ => rfl) (by simp [f32Bytes]))
    have h0123 := storesAt_bind h012 (h3.congr (fun _ => rfl) (by simp [f32Bytes]))
    have hpat : colorBytes img color =
        f32Bytes color.r ++ f32Bytes color.g ++ f32Bytes color.b ++ f32Bytes color.a := by
      simp [colorBytes, hfmt]
    rw [hpat]
    exact h0123.congr
      (fun b => by simp [clearColorPixel, hfmt, Option.bind_eq_bind, Option.bind_assoc])
      rfl

theorem storesAt_clearDepthPixel (img : Image) (depth : ℚ) (x y : Nat) :
    StoresAt (clearDepthPixel img depth x y) (y * img.pitch + x * img.bytesPerPixel)
      (f32Bytes depth) :=
  (storesAt_writeF32 (y * img.pitch + x * img.bytesPerPixel) depth).congr (fun _ => rfl) rfl

/-- One row of pixels: a loop over `x` whose body stores `pat` at
`base + x * bpp`, with `pat` no longer than `bpp`. -/
theorem forLoop_row {body : Nat → Buffer → Option Buffer} {base bpp : Nat} {pat : List MByte}
    (hb : ∀ x, StoresAt (body x) (base + x * bpp) pat) (hlen : pat.length ≤ bpp) :
    ∀ (n : Nat) (buf : Buffer), base + n * bpp ≤ buf.length →
      ∃ buf1, forLoop n body buf = some buf1 ∧ buf1.length = buf.length ∧
        (∀ x k, x < n → k < pat.length → buf1[base + x * bpp + k]? = pat[k]?) ∧
        (∀ i, i < base ∨ base + n * bpp ≤ i → buf1[i]? = buf[i]?) := by
  intro n
  induction n with
  | zero =>
    intro buf _
    exact ⟨buf, rfl, rfl, fun x k hx => absurd hx (Nat.not_lt_zero x), fun i _ => rfl⟩
  | succ n ih =>
    intro buf hfit
    have hsucc : (n + 1) * bpp = n * bpp + bpp := Nat.succ_mul n bpp
    obtain ⟨b1, hrun, hl1, hw1, hk1⟩ := ih buf (by omega)
    obtain ⟨b2, hst, hl2, hw2, hk2⟩ := hb n b1 (by omega)
    refine ⟨b2, ?_, by omega, ?_, ?_⟩
    · simp only [forLoop, hrun, Option.some_bind, hst]
    · intro x k hx hk
      by_cases hxn : x = n
      · subst hxn
        exact hw2 k hk
      · have hxlt : x < n := by omega
        have hmul : (x + 1) * bpp ≤ n * bpp := Nat.mul_le_mul_right bpp hxlt
        have hsx : (x + 1) * bpp = x * bpp + bpp := Nat.succ_mul x bpp
        rw [hk2 _ (Or.inl (by omega))]
        exact hw1 x k hxlt hk
    · intro i hi
      rw [hk2 i (by omega), hk1 i (by omega)]

/-- The two nested loops over the pixels of an image: the body stores `pat`
at `y * pitch + x * bpp`, with `pat` no longer than `bpp` and a row no longer
than `pitch`. -/
theorem forLoop_grid {body : Nat → Nat → Buffer → Option Buffer} {pitch bpp w : Nat}
    {pat : List MByte} (hb : ∀ x y, StoresAt (body x y) (y * pitch + x * bpp) pat)
    (hlen : pat.length ≤ bpp) (hp : w * bpp ≤ pitch) :
    ∀ (h : Nat) (buf : Buffer), h * pitch ≤ buf.length →
      ∃ buf1, forLoop h (fun y b => forLoop w (fun x b1 => body x y b1) b) buf = some buf1 ∧
        buf1.length = buf.length ∧
        (∀ x y k, x < w → y < h → k < pat.length →
          buf1[y * pitch + x * bpp + k]? = pat[k]?) ∧
        (∀ i, h * pitch ≤ i → buf1[i]? = buf[i]?) := by
  intro h
  induction h with
  | zero =>
    intro buf _
    exact ⟨buf, rfl, rfl, fun x y k _ hy => absurd hy (Nat.not_lt_zero y), fun i _ => rfl⟩
  | succ h ih =>
    intro buf hfit
    have hsucc : (h + 1) * pitch = h * pitch + pitch := Nat.succ_mul h pitch
    obtain ⟨b1, hrun, hl1, hw1, hk1⟩ := ih buf (by omega)
    obtain ⟨b2, hrow, hl2, hw2, hk2⟩ :=
      forLoop_row (fun x => hb x h) hlen w b1 (by omega)
    refine ⟨b2, ?_, by omega, ?_, ?_⟩
    · simp only [forLoop, hrun, Option.some_bind, hrow]
    · intro x y k hx hy hk
      by_cases hyh : y = h
      · subst hyh
        exact hw2 x k hx hk
      · have hylt : y < h := by omega
        have hmul : (y + 1) * pitch ≤ h * pitch := Nat.mul_le_mul_right pitch hylt
        have hsy : (y + 1) * pitch = y * pitch + pitch := Nat.succ_mul y pitch
        have hmx : (x + 1) * bpp ≤ w * bpp := Nat.mul_le_mul_right bpp hx
        have hsx : (x + 1) * bpp = x * bpp + bpp := Nat.succ_mul x bpp
        rw [hk2 _ (Or.inl (by omega))]
        exact hw1 x y k hx hylt hk
    · intro i hi
      rw [hk2 i (by omega), hk1 i (by omega)]

theorem colorBytes_length (img : Image) (color : Vec4) :
    (colorBytes img color).length = colorStoreSize img := by
  unfold colorBytes colorStoreSize
  split <;> simp [f32Bytes]

theorem clearColorPart_spec (mem : GPUMemory) (cmd : ClearCommand) (fbo : Framebuffer)
    (hfbo : mem.framebuffers[mem.activatedFramebuffer]? = some fbo)
    (hsz : cmd.clearColor = true → ColorSized mem.heap fbo) :
    ∃ heap1, clearColorPart mem cmd = some { mem with heap := heap1 } ∧
      (∀ q, (heap1 q).length = (mem.heap q).length) ∧
      (∀ q, cmd.clearColor = false ∨ fbo.color.data ≠ some q → heap1 q = mem.heap q) ∧
      (cmd.clearColor = true → ∀ p, fbo.color.data = some p →
        ∀ x y k, x < fbo.width → y < fbo.height → k < colorStoreSize fbo.color →
          (heap1 p)[y * fbo.color.pitch + x * fbo.color.bytesPerPixel + k]? =
            (colorBytes fbo.color cmd.color)[k]?) := by
  unfold clearColorPart
  cases hcc : cmd.clearColor
  · exact ⟨mem.heap, by simp, fun _ => rfl, fun _ _ => rfl, fun h => absurd h (by simp)⟩
  · cases hdata : fbo.color.data with
    | none =>
      refine ⟨mem.heap, ?_, fun _ => rfl, fun _ _ => rfl, ?_⟩
      · simp [hfbo, hdata]
      · intro _ p hp
        simp at hp
    | some p =>
      obtain ⟨hbpp, hpitch, hsize⟩ := hsz hcc p hdata
      obtain ⟨buf1, hrun, hlen, hw, _⟩ :=
        forLoop_grid (fun x y => storesAt_clearColorPixel fbo.color cmd.color x y)
          (by rw [colorBytes_length]; exact hbpp) hpitch fbo.height (mem.heap p) hsize
      refine ⟨Function.update mem.heap p buf1, ?_, ?_, ?_, ?_⟩
      · simp [hfbo, hdata, clearColorLoops, hrun]
      · intro q
        by_cases hq : q = p
        · subst hq
          simpa using hlen
        · simp [Function.update_noteq hq]
      · intro q hq
        have hne : q ≠ p := by
          rcases hq with h | h
          · simp at h
          · intro hqp
            exact h (by rw [hqp])
        simp [Function.update_noteq hne]
      · intro _ p1 hp1 x y k hx hy hk
        have hpp : p1 = p := by simpa using hp1.symm
        subst hpp
        simp only [Function.update_same]
        exact hw x y k hx hy (by rw [colorBytes_length]; exact hk)

theorem clearDepthPart_spec (mem : GPUMemory) (cmd : ClearCommand) (fbo : Framebuffer)
    (hfbo : mem.framebuffers[mem.activatedFramebuffer]? = some fbo)
    (hsz : cmd.clearDepth = true → DepthSized mem.heap fbo) :
    ∃ heap1, clearDepthPart mem cmd = some { mem with heap := heap1 } ∧
      (∀ q, (heap1 q).length = (mem.heap q).length) ∧
      (∀ q, cmd.clearDepth = false ∨ fbo.depth.data ≠ some q → heap1 q = mem.heap q) ∧
      (cmd.clearDepth = true → ∀ p, fbo.depth.data = some p →
        ∀ x y k, x < fbo.width → y < fbo.height → k < 4 →
          (heap1 p)[y * fbo.depth.pitch + x * fbo.depth.bytesPerPixel + k]? =
            (f32Bytes cmd.depth)[k]?) := by
  unfold clearDepthPart
  cases hcd : cmd.clearDepth
  · exact ⟨mem.heap, by simp, fun _ => rfl, fun _ _ => rfl, fun h => absurd h (by simp)⟩
  · cases hdata : fbo.depth.data with
    | none =>
      refine ⟨mem.heap, ?_, fun _ => rfl, fun _ _ => rfl, ?_⟩
      · simp [hfbo, hdata]
      · intro _ p hp
        simp at hp
    | some p =>
      obtain ⟨hbpp, hpitch, hsize⟩ := hsz hcd p hdata
      obtain ⟨buf1, hrun, hlen, hw, _⟩ :=
        forLoop_grid (fun x y => storesAt_clearDepthPixel fbo.depth cmd.depth x y)
          (by simpa [f32Bytes] using hbpp) hpitch fbo.height (mem.heap p) hsize
      refine ⟨Function.update mem.heap p buf1, ?_, ?_, ?_, ?_⟩
      · simp [hfbo, hdata, clearDepthLoops, hrun]
      · intro q
        by_cases hq : q = p
        · subst hq
          simpa using hlen
        · simp [Function.update_noteq hq]
      · intro q hq
        have hne : q ≠ p := by
          rcases hq with h | h
          · simp at h
          · intro hqp
            exact h (by rw [hqp])
        simp [Function.update_noteq hne]
      · intro _ p1 hp1 x y k hx hy hk
        have hpp : p1 = p := by simpa using hp1.symm
        subst hpp
        simp only [Function.update_same]
        exact hw x y k hx hy (by simpa [f32Bytes] using hk)

theorem readF32_of_bytes {buf : Buffer} {off : Nat} {v : ℚ}
    (h : ∀ k, k < 4 → buf[off + k]? = (f32Bytes v)[k]?) : readF32 buf off = some v := by
  have h0 := h 0 (by omega)
  have h1 := h 1 (by omega)
  have h2 := h 2 (by omega)
  have h3 := h 3 (by omega)
  simp only [f32Bytes, Nat.add_zero] at h0 h1 h2 h3
  simp [readF32, h0, h1, h2, h3]

theorem readU8_of_byte {buf : Buffer} {off b : Nat}
    (h : buf[off]? = some (MByte.u8 b)) : readU8 buf off = some b := by
  simp [readU8, h]

/-- What `clear` does to the heap when the active framebuffer is `fbo` and
the images it clears are well sized. -/
theorem clear_spec (mem : GPUMemory) (cmd : ClearCommand) (fbo : Framebuffer)
    (hfbo : mem.framebuffers[mem.activatedFramebuffer]? = some fbo)
    (hc : cmd.clearColor = true → ColorSized mem.heap fbo)
    (hd : cmd.clearDepth = true → DepthSized mem.heap fbo) :
    ∃ heap2, clear mem cmd = some { mem with heap := heap2 } ∧
      (∀ q, (heap2 q).length = (mem.heap q).length) ∧
      (∀ q, cmd.clearColor = false ∨ fbo.color.data ≠ some q →
        cmd.clearDepth = false ∨ fbo.depth.data ≠ some q → heap2 q = mem.heap q) ∧
      (cmd.clearDepth = true → ∀ p, fbo.depth.data = some p →
        ∀ x y k, x < fbo.width → y < fbo.height → k < 4 →
          (heap2 p)[y * fbo.depth.pitch + x * fbo.depth.bytesPerPixel + k]? =
            (f32Bytes cmd.depth)[k]?) ∧
      (cmd.clearColor = true → ∀ p, fbo.color.data = some p →
        cmd.clearDepth = false ∨ fbo.depth.data ≠ some p →
        ∀ x y k, x < fbo.width → y < fbo.height → k < colorStoreSize fbo.color →
          (heap2 p)[y * fbo.color.pitch + x * fbo.color.bytesPerPixel + k]? =
            (colorBytes fbo.color cmd.color)[k]?) := by
  obtain ⟨heap1, hrun1, hlen1, hkeep1, hcol1⟩ := clearColorPart_spec mem cmd fbo hfbo hc
  have hd1 : cmd.clearDepth = true → DepthSized heap1 fbo := by
    intro hcd q hq
    obtain ⟨h1, h2, h3⟩ := hd hcd q hq
    exact ⟨h1, h2, by rw [hlen1 q]; exact h3⟩
  obtain ⟨heap2, hrun2, hlen2, hkeep2, hdep2⟩ :=
    clearDepthPart_spec { mem with heap := heap1 } cmd fbo hfbo hd1
  refine ⟨heap2, ?_, ?_, ?_, ?_, ?_⟩
  · simp only [clear, hrun1, Option.some_bind, hrun2]
  · intro q
    rw [hlen2 q, hlen1 q]
  · intro q h1 h2
    have e2 : heap2 q = heap1 q := hkeep2 q h2
    rw [e2, hkeep1 q h1]
  · exact hdep2
  · intro hcc p hp hnd x y k hx hy hk
    have e2 : heap2 p = heap1 p := hkeep2 p hnd
    rw [e2]
    exact hcol1 hcc p hp x y k hx hy hk

theorem truncQ_of_nonneg {f : ℚ} (h : 0 ≤ f) : truncQ f = ⌊f⌋ := by
  simp [truncQ, h]

theorem castU8_of_floor_lt {f : ℚ} (h0 : 0 ≤ f) (h1 : f < 256) : castU8 f = ⌊f⌋.toNat := by
  have hfl0 : 0 ≤ ⌊f⌋ := Int.floor_nonneg.mpr h0
  have hfl1 : ⌊f⌋ < 256 := by
    rw [Int.floor_lt]
    exact_mod_cast h1
  simp only [castU8, truncQ_of_nonneg h0]
  rw [Int.emod_eq_of_lt hfl0 hfl1]

theorem castU8_mul_255 {v : ℚ} (h0 : 0 ≤ v) (h1 : v ≤ 1) :
    castU8 (v * 255) = ⌊v * 255⌋.toNat :=
  castU8_of_floor_lt (by positivity) (by linarith)

theorem castU8_eq_clampedByte {v : ℚ} (h0 : -1 < v * 255) (h1 : v * 255 < 256) :
    castU8 (v * 255) = clampedByte v := by
  unfold clampedByte
  by_cases hneg : v * 255 < 0
  · have hc : ⌈v * 255⌉ = 0 := by
      rw [Int.ceil_eq_iff]
      constructor
      · simpa using h0
      · simpa using hneg.le
    have hmax : max (v * 255) 0 = 0 := max_eq_right hneg.le
    simp [castU8, truncQ, not_le.mpr hneg, hc, hmax]
  · have hnn : 0 ≤ v * 255 := not_lt.mp hneg
    rw [castU8_of_floor_lt hnn h1, max_eq_left hnn]
    by_cases hle : v * 255 ≤ 255
    · rw [min_eq_left hle, truncQ_of_nonneg hnn]
    · have hgt : 255 < v * 255 := not_le.mp hle
      rw [min_eq_right hgt.le]
      have hfl : ⌊v * 255⌋ = 255 := by
        rw [Int.floor_eq_iff]
        constructor
        · simpa using hgt.le
        · have : (255 : ℚ) + 1 = 256 := by norm_num
          simpa [this] using h1
      rw [hfl]
      have : truncQ 255 = 255 := by
        rw [truncQ_of_nonneg (by norm_num)]
        exact Int.floor_eq_iff.mpr ⟨by norm_num, by norm_num⟩
      rw [this]

/-- The four floats of a pixel, read back from the sixteen bytes that `clear`
stores for the colour `c`. -/
theorem readF32_of_color_bytes {buf : Buffer} {off : Nat} {c : Vec4}
    (hw : ∀ k, k < 16 →
      buf[off + k]? = (f32Bytes c.r ++ f32Bytes c.g ++ f32Bytes c.b ++ f32Bytes c.a)[k]?) :
    readF32 buf off = some c.r ∧ readF32 buf (off + 4) = some c.g ∧
      readF32 buf (off + 8) = some c.b ∧ readF32 buf (off + 12) = some c.a := by
  refine ⟨readF32_of_bytes ?_, readF32_of_bytes ?_, readF32_of_bytes ?_, readF32_of_bytes ?_⟩
  · intro k hk
    rw [hw k (by omega)]
    interval_cases k <;> rfl
  · intro k hk
    rw [Nat.add_assoc, hw (4 + k) (by omega)]
    interval_cases k <;> rfl
  · intro k hk
    rw [Nat.add_assoc, hw (8 + k) (by omega)]
    interval_cases k <;> rfl
  · intro k hk
    rw [Nat.add_assoc, hw (12 + k) (by omega)]
    interval_cases k <;> rfl

/-- The bytes of every pixel of a well-sized colour image after `clear` with
`clearColor`, when a depth image cleared by the same command is well sized and
has storage of its own. -/
theorem color_bytes_after_clear (mem : GPUMemory) (cmd : ClearCommand) (fbo : Framebuffer)
    (p : Nat)
    (hfbo : mem.framebuffers[mem.activatedFramebuffer]? = some fbo)
    (hdata : fbo.color.data = some p)
    (hbpp : colorStoreSize fbo.color ≤ fbo.color.bytesPerPixel)
    (hpitch : fbo.width * fbo.color.bytesPerPixel ≤ fbo.color.pitch)
    (hsize : fbo.height * fbo.color.pitch ≤ (mem.heap p).length)
    (hcc : cmd.clearColor = true)
    (hdepth : cmd.clearDepth = true → DepthSized mem.heap fbo ∧ fbo.depth.data ≠ some p) :
    ∃ mem1, clear mem cmd = some mem1 ∧
      mem1.framebuffers[mem1.activatedFramebuffer]? = some fbo ∧
      ∀ x y k, x < fbo.width → y < fbo.height → k < colorStoreSize fbo.color →
        (mem1.heap p)[y * fbo.color.pitch + x * fbo.color.bytesPerPixel + k]? =
          (colorBytes fbo.color cmd.color)[k]? := by
  have hc : cmd.clearColor = true → ColorSized mem.heap fbo := by
    intro _ q hq
    have hqp : q = p := by simpa [hdata] using hq.symm
    subst hqp
    exact ⟨hbpp, hpitch, hsize⟩
  obtain ⟨heap2, hrun, _, _, _, hcol⟩ :=
    clear_spec mem cmd fbo hfbo hc (fun h => (hdepth h).1)
  have hnd : cmd.clearDepth = false ∨ fbo.depth.data ≠ some p := by
    cases hcd : cmd.clearDepth
    · exact Or.inl rfl
    · exact Or.inr (hdepth hcd).2
  exact ⟨_, hrun, hfbo, fun x y k hx hy hk => hcol hcc p hdata hnd x y k hx hy hk⟩

/-- C2: `clear` with `clearColor` on a FLOAT32 colour image whose pixels take
at least 16 bytes, whose rows fit into the pitch and whose storage holds
`height` rows returns, and afterwards every pixel `(x, y)` of the active
framebuffer holds the four floats `r, g, b, a` of the command, unconverted,
at `y * pitch + x * bytesPerPixel` and the three following float slots.  (If
the depth is cleared too, the depth image is well sized and has storage of its
own.) -/
theorem clear_color_float32 (mem : GPUMemory) (cmd : ClearCommand) (fbo : Framebuffer) (p : Nat)
    (hfbo : mem.framebuffers[mem.activatedFramebuffer]? = some fbo)
    (hdata : fbo.color.data = some p)
    (hfmt : fbo.color.format = Format.FLOAT32)
    (hbpp : 16 ≤ fbo.color.bytesPerPixel)
    (hpitch : fbo.width * fbo.color.bytesPerPixel ≤ fbo.color.pitch)
    (hsize : fbo.height * fbo.color.pitch ≤ (mem.heap p).length)
    (hcc : cmd.clearColor = true)
    (hdepth : cmd.clearDepth = true → DepthSized mem.heap fbo ∧ fbo.depth.data ≠ some p) :
    ∃ mem1, clear mem cmd = some mem1 ∧
      mem1.framebuffers[mem1.activatedFramebuffer]? = some fbo ∧
      ∀ x y, x < fbo.width → y < fbo.height →
        readF32 (mem1.heap p) (y * fbo.color.pitch + x * fbo.color.bytesPerPixel)
          = some cmd.color.r ∧
        readF32 (mem1.heap p) (y * fbo.color.pitch + x * fbo.color.bytesPerPixel + 4)
          = some cmd.color.g ∧
        readF32 (mem1.heap p) (y * fbo.color.pitch + x * fbo.color.bytesPerPixel + 8)
          = some cmd.color.b ∧
        readF32 (mem1.heap p) (y * fbo.color.pitch + x * fbo.color.bytesPerPixel + 12)
          = some cmd.color.a := by
  have hsz : colorStoreSize fbo.color = 16 := by simp [colorStoreSize, hfmt]
  have hpat : colorBytes fbo.color cmd.color =
      f32Bytes cmd.color.r ++ f32Bytes cmd.color.g ++ f32Bytes cmd.color.b ++
        f32Bytes cmd.color.a := by simp [colorBytes, hfmt]
  obtain ⟨mem1, hrun, hfb, hbytes⟩ :=
    color_bytes_after_clear mem cmd fbo p hfbo hdata (by rw [hsz]; exact hbpp) hpitch hsize
      hcc hdepth
  rw [hsz, hpat] at hbytes
  refine ⟨mem1, hrun, hfb, ?_⟩
  intro x y hx hy
  exact readF32_of_color_bytes (fun k hk => hbytes x y k hx hy hk)

/-- Witness of C2: the 2 by 2 FLOAT32 framebuffer cleared to
`(0.2, 0.4, 0.6, 1.0)`, depth cleared as well. -/
theorem clear_color_float32_witness :
    ∃ mem1, clear (exMem 0) (exClear (1 / 5) (2 / 5) (3 / 5) 1 0 true true) = some mem1 ∧
      mem1.framebuffers[mem1.activatedFramebuffer]? = some exFbFloat ∧
      ∀ x y, x < exFbFloat.width → y < exFbFloat.height →
        readF32 (mem1.heap 1) (y * exFbFloat.color.pitch + x * exFbFloat.color.bytesPerPixel)
          = some (exClear (1 / 5) (2 / 5) (3 / 5) 1 0 true true).color.r ∧
        readF32 (mem1.heap 1) (y * exFbFloat.color.pitch + x * exFbFloat.color.bytesPerPixel + 4)
          = some (exClear (1 / 5) (2 / 5) (3 / 5) 1 0 true true).color.g ∧
        readF32 (mem1.heap 1) (y * exFbFloat.color.pitch + x * exFbFloat.color.bytesPerPixel + 8)
          = some (exClear (1 / 5) (2 / 5) (3 / 5) 1 0 true true).color.b ∧
        readF32 (mem1.heap 1)
            (y * exFbFloat.color.pitch + x * exFbFloat.color.bytesPerPixel + 12)
          = some (exClear (1 / 5) (2 / 5) (3 / 5) 1 0 true true).color.a :=
  clear_color_float32 (exMem 0) (exClear (1 / 5) (2 / 5) (3 / 5) 1 0 true true) exFbFloat 1
    rfl rfl rfl (by decide) (by decide) (by decide) rfl
    (fun _ => ⟨fun q hq => by
      have hq2 : q = 2 := by simpa [exFbFloat] using hq.symm
      subst hq2
      exact ⟨by decide, by decide, by decide⟩, by decide⟩)

/-- The four bytes of every pixel of a UINT8 colour image after `clear` with
`clearColor`: the conversions of the four channels. -/
theorem uint8_bytes_after_clear (mem : GPUMemory) (cmd : ClearCommand) (fbo : Framebuffer)
    (p : Nat)
    (hfbo : mem.framebuffers[mem.activatedFramebuffer]? = some fbo)
    (hdata : fbo.color.data = some p)
    (hfmt : fbo.color.format = Format.UINT8)
    (hbpp : 4 ≤ fbo.color.bytesPerPixel)
    (hpitch : fbo.width * fbo.color.bytesPerPixel ≤ fbo.color.pitch)
    (hsize : fbo.height * fbo.color.pitch ≤ (mem.heap p).length)
    (hcc : cmd.clearColor = true)
    (hdepth : cmd.clearDepth = true → DepthSized mem.heap fbo ∧ fbo.depth.data ≠ some p) :
    ∃ mem1, clear mem cmd = some mem1 ∧
      mem1.framebuffers[mem1.activatedFramebuffer]? = some fbo ∧
      ∀ x y, x < fbo.width → y < fbo.height →
        readU8 (mem1.heap p) (y * fbo.color.pitch + x * fbo.color.bytesPerPixel)
          = some (castU8 (cmd.color.r * 255)) ∧
        readU8 (mem1.heap p) (y * fbo.color.pitch + x * fbo.color.bytesPerPixel + 1)
          = some (castU8 (cmd.color.g * 255)) ∧
        readU8 (mem1.heap p) (y * fbo.color.pitch + x * fbo.color.bytesPerPixel + 2)
          = some (castU8 (cmd.color.b * 255)) ∧
        readU8 (mem1.heap p) (y * fbo.color.pitch + x * fbo.color.bytesPerPixel + 3)
          = some (castU8 (cmd.color.a * 255)) := by
  have hsz : colorStoreSize fbo.color = 4 := by simp [colorStoreSize, hfmt]
  have hpat : colorBytes fbo.color cmd.color =
      [MByte.u8 (castU8 (cmd.color.r * 255)), MByte.u8 (castU8 (cmd.color.g * 255)),
        MByte.u8 (castU8 (cmd.color.b * 255)), MByte.u8 (castU8 (cmd.color.a * 255))] := by
    simp [colorBytes, hfmt]
  obtain ⟨mem1, hrun, hfb, hbytes⟩ :=
    color_bytes_after_clear mem cmd fbo p hfbo hdata (by rw [hsz]; exact hbpp) hpitch hsize
      hcc hdepth
  rw [hsz, hpat] at hbytes
  refine ⟨mem1, hrun, hfb, ?_⟩
  intro x y hx hy
  have hw := fun k hk => hbytes x y k hx hy hk
  refine ⟨readU8_of_byte ?_, readU8_of_byte ?_, readU8_of_byte ?_, readU8_of_byte ?_⟩
  · have := hw 0 (by omega)
    simpa using this
  · have := hw 1 (by omega)
    simpa using this
  · have := hw 2 (by omega)
    simpa using this
  · have := hw 3 (by omega)
    simpa using this

/-- C3: `clear` with `clearColor` on a well-sized UINT8 colour image, for a
colour whose four channels lie in `[0, 1]`, returns, and afterwards every
pixel of the active colour image holds for each channel value `v` the byte
`floor (v * 255)`.  (If the depth is cleared too, the depth image is well
sized and has storage of its own.) -/
theorem clear_color_uint8 (mem : GPUMemory) (cmd : ClearCommand) (fbo : Framebuffer) (p : Nat)
    (hfbo : mem.framebuffers[mem.activatedFramebuffer]? = some fbo)
    (hdata : fbo.color.data = some p)
    (hfmt : fbo.color.format = Format.UINT8)
    (hbpp : 4 ≤ fbo.color.bytesPerPixel)
    (hpitch : fbo.width * fbo.color.bytesPerPixel ≤ fbo.color.pitch)
    (hsize : fbo.height * fbo.color.pitch ≤ (mem.heap p).length)
    (hcc : cmd.clearColor = true)
    (hdepth : cmd.clearDepth = true → DepthSized mem.heap fbo ∧ fbo.depth.data ≠ some p)
    (hr : 0 ≤ cmd.color.r ∧ cmd.color.r ≤ 1) (hg : 0 ≤ cmd.color.g ∧ cmd.color.g ≤ 1)
    (hb : 0 ≤ cmd.color.b ∧ cmd.color.b ≤ 1) (ha : 0 ≤ cmd.color.a ∧ cmd.color.a ≤ 1) :
    ∃ mem1, clear mem cmd = some mem1 ∧
      mem1.framebuffers[mem1.activatedFramebuffer]? = some fbo ∧
      ∀ x y, x < fbo.width → y < fbo.height →
        readU8 (mem1.heap p) (y * fbo.color.pitch + x * fbo.color.bytesPerPixel)
          = some ⌊cmd.color.r * 255⌋.toNat ∧
        readU8 (mem1.heap p) (y * fbo.color.pitch + x * fbo.color.bytesPerPixel + 1)
          = some ⌊cmd.color.g * 255⌋.toNat ∧
        readU8 (mem1.heap p) (y * fbo.color.pitch + x * fbo.color.bytesPerPixel + 2)
          = some ⌊cmd.color.b * 255⌋.toNat ∧
        readU8 (mem1.heap p) (y * fbo.color.pitch + x * fbo.color.bytesPerPixel + 3)
          = some ⌊cmd.color.a * 255⌋.toNat := by
  obtain ⟨mem1, hrun, hfb, hpix⟩ :=
    uint8_bytes_after_clear mem cmd fbo p hfbo hdata hfmt hbpp hpitch hsize hcc hdepth
  refine ⟨mem1, hrun, hfb, ?_⟩
  intro x y hx hy
  obtain ⟨h0, h1, h2, h3⟩ := hpix x y hx hy
  rw [castU8_mul_255 hr.1 hr.2] at h0
  rw [castU8_mul_255 hg.1 hg.2] at h1
  rw [castU8_mul_255 hb.1 hb.2] at h2
  rw [castU8_mul_255 ha.1 ha.2] at h3
  exact ⟨h0, h1, h2, h3⟩

/-- Witness of C3: the 1 by 1 UINT8 framebuffer cleared to `(1, 1, 1, 1)`
holds the bytes `(255, 255, 255, 255)`. -/
theorem clear_color_uint8_witness :
    ∃ mem1, clear (exMem 1) (exClear 1 1 1 1 0 true false) = some mem1 ∧
      readU8 (mem1.heap 3) 0 = some 255 ∧ readU8 (mem1.heap 3) 1 = some 255 ∧
      readU8 (mem1.heap 3) 2 = some 255 ∧ readU8 (mem1.heap 3) 3 = some 255 := by
  obtain ⟨mem1, hrun, _, hpix⟩ :=
    clear_color_uint8 (exMem 1) (exClear 1 1 1 1 0 true false) exFbByte 3
      rfl rfl rfl (by decide) (by decide) (by decide) rfl (fun h => absurd h (by decide))
      (by decide) (by decide) (by decide) (by decide)
  have h := hpix 0 0 (by decide) (by decide)
  have hfl : ⌊(exClear 1 1 1 1 0 true false).color.r * 255⌋.toNat = 255 := by
    norm_num [exClear]
    rfl
  have hfl1 : ⌊(exClear 1 1 1 1 0 true false).color.g * 255⌋.toNat = 255 := by
    norm_num [exClear]
    rfl
  have hfl2 : ⌊(exClear 1 1 1 1 0 true false).color.b * 255⌋.toNat = 255 := by
    norm_num [exClear]
    rfl
  have hfl3 : ⌊(exClear 1 1 1 1 0 true false).color.a * 255⌋.toNat = 255 := by
    norm_num [exClear]
    rfl
  rw [hfl, hfl1, hfl2, hfl3] at h
  exact ⟨mem1, hrun, by simpa using h.1, by simpa using h.2.1, by simpa using h.2.2.1,
    by simpa using h.2.2.2⟩

/-- Counterexample to C4: on the 1 by 1 UINT8 framebuffer, `clear` with the
colour `(2, 0, 0, 0)` converts the value 510, which does not fit into 8 bits;
it returns and leaves in the first channel the byte 254, the low 8 bits of
510, and not the clamped byte 255. -/
theorem clear_uint8_not_clamped :
    clampedByte 2 = 255 ∧
    truncQ ((exClear 2 0 0 0 0 true false).color.r * 255) = 510 ∧
    ∃ mem1, clear (exMem 1) (exClear 2 0 0 0 0 true false) = some mem1 ∧
      readU8 (mem1.heap 3) 0 = some 254 ∧
      readU8 (mem1.heap 3) 0 ≠ some (clampedByte 2) := by
  have hclamp : clampedByte 2 = 255 := by
    norm_num [clampedByte, truncQ]
    rfl
  have htrunc : truncQ ((exClear 2 0 0 0 0 true false).color.r * 255) = 510 := by
    norm_num [exClear, truncQ]
  obtain ⟨mem1, hrun, _, hpix⟩ :=
    uint8_bytes_after_clear (exMem 1) (exClear 2 0 0 0 0 true false) exFbByte 3
      rfl rfl rfl (by decide) (by decide) (by decide) rfl (fun h => absurd h (by decide))
  have h := (hpix 0 0 (by decide) (by decide)).1
  have hcast : castU8 ((exClear 2 0 0 0 0 true false).color.r * 255) = 254 := by
    rw [castU8, htrunc]
    rfl
  rw [hcast] at h
  have h0 : readU8 (mem1.heap 3) 0 = some 254 := by simpa using h
  refine ⟨hclamp, htrunc, mem1, hrun, h0, ?_⟩
  rw [h0, hclamp]
  decide

/-- C4, amended: `clear` with `clearColor` on a well-sized UINT8 colour image
returns, and for a colour whose channels `v` satisfy `-1 < v * 255 < 256`
every pixel holds for each channel the truncation of
`min (max (v * 255) 0) 255`.  (If the depth is cleared too, the depth image
is well sized and has storage of its own.) -/
theorem clear_uint8_in_range (mem : GPUMemory) (cmd : ClearCommand) (fbo : Framebuffer)
    (p : Nat)
    (hfbo : mem.framebuffers[mem.activatedFramebuffer]? = some fbo)
    (hdata : fbo.color.data = some p)
    (hfmt : fbo.color.format = Format.UINT8)
    (hbpp : 4 ≤ fbo.color.bytesPerPixel)
    (hpitch : fbo.width * fbo.color.bytesPerPixel ≤ fbo.color.pitch)
    (hsize : fbo.height * fbo.color.pitch ≤ (mem.heap p).length)
    (hcc : cmd.clearColor = true)
    (hdepth : cmd.clearDepth = true → DepthSized mem.heap fbo ∧ fbo.depth.data ≠ some p)
    (hr : -1 < cmd.color.r * 255 ∧ cmd.color.r * 255 < 256)
    (hg : -1 < cmd.color.g * 255 ∧ cmd.color.g * 255 < 256)
    (hb : -1 < cmd.color.b * 255 ∧ cmd.color.b * 255 < 256)
    (ha : -1 < cmd.color.a * 255 ∧ cmd.color.a * 255 < 256) :
    ∃ mem1, clear mem cmd = some mem1 ∧
      mem1.framebuffers[mem1.activatedFramebuffer]? = some fbo ∧
      ∀ x y, x < fbo.width → y < fbo.height →
        readU8 (mem1.heap p) (y * fbo.color.pitch + x * fbo.color.bytesPerPixel)
          = some (clampedByte cmd.color.r) ∧
        readU8 (mem1.heap p) (y * fbo.color.pitch + x * fbo.color.bytesPerPixel + 1)
          = some (clampedByte cmd.color.g) ∧
        readU8 (mem1.heap p) (y * fbo.color.pitch + x * fbo.color.bytesPerPixel + 2)
          = some (clampedByte cmd.color.b) ∧
        readU8 (mem1.heap p) (y * fbo.color.pitch + x * fbo.color.bytesPerPixel + 3)
          = some (clampedByte cmd.color.a) := by
  obtain ⟨mem1, hrun, hfb, hpix⟩ :=
    uint8_bytes_after_clear mem cmd fbo p hfbo hdata hfmt hbpp hpitch hsize hcc hdepth
  refine ⟨mem1, hrun, hfb, ?_⟩
  intro x y hx hy
  obtain ⟨h0, h1, h2, h3⟩ := hpix x y hx hy
  rw [castU8_eq_clampedByte hr.1 hr.2] at h0
  rw [castU8_eq_clampedByte hg.1 hg.2] at h1
  rw [castU8_eq_clampedByte hb.1 hb.2] at h2
  rw [castU8_eq_clampedByte ha.1 ha.2] at h3
  exact ⟨h0, h1, h2, h3⟩

/-- Witness of the amended C4: the colour `(1.001, -0.001, 0.5, 1)`, whose
first two channels lie just outside `[0, 1]`. -/
theorem clear_uint8_in_range_witness :
    ∃ mem1, clear (exMem 1) (exClear (1001 / 1000) (-1 / 1000) (1 / 2) 1 0 true false)
        = some mem1 ∧
      mem1.framebuffers[mem1.activatedFramebuffer]? = some exFbByte ∧
      ∀ x y, x < exFbByte.width → y < exFbByte.height →
        readU8 (mem1.heap 3) (y * exFbByte.color.pitch + x * exFbByte.color.bytesPerPixel)
          = some (clampedByte (1001 / 1000)) ∧
        readU8 (mem1.heap 3) (y * exFbByte.color.pitch + x * exFbByte.color.bytesPerPixel + 1)
          = some (clampedByte (-1 / 1000)) ∧
        readU8 (mem1.heap 3) (y * exFbByte.color.pitch + x * exFbByte.color.bytesPerPixel + 2)
          = some (clampedByte (1 / 2)) ∧
        readU8 (mem1.heap 3) (y * exFbByte.color.pitch + x * exFbByte.color.bytesPerPixel + 3)
          = some (clampedByte 1) :=
  clear_uint8_in_range (exMem 1)
    (exClear (1001 / 1000) (-1 / 1000) (1 / 2) 1 0 true false) exFbByte 3
    rfl rfl rfl (by decide) (by decide) (by decide) rfl (fun h => absurd h (by decide))
    (by norm_num [exClear]) (by norm_num [exClear]) (by norm_num [exClear])
    (by norm_num [exClear])

/-- The bytes of every pixel of a well-sized depth image after `clear` with
`clearDepth`, and the storage that a `clear` without `clearColor` leaves
alone. -/
theorem depth_bytes_after_clear (mem : GPUMemory) (cmd : ClearCommand) (fbo : Framebuffer)
    (p : Nat)
    (hfbo : mem.framebuffers[mem.activatedFramebuffer]? = some fbo)
    (hdata : fbo.depth.data = some p)
    (hbpp : 4 ≤ fbo.depth.bytesPerPixel)
    (hpitch : fbo.width * fbo.depth.bytesPerPixel ≤ fbo.depth.pitch)
    (hsize : fbo.height * fbo.depth.pitch ≤ (mem.heap p).length)
    (hcd : cmd.clearDepth = true)
    (hcolor : cmd.clearColor = true → ColorSized mem.heap fbo) :
    ∃ mem1, clear mem cmd = some mem1 ∧
      mem1.framebuffers[mem1.activatedFramebuffer]? = some fbo ∧
      (∀ x y k, x < fbo.width → y < fbo.height → k < 4 →
        (mem1.heap p)[y * fbo.depth.pitch + x * fbo.depth.bytesPerPixel + k]? =
          (f32Bytes cmd.depth)[k]?) ∧
      (cmd.clearColor = false → ∀ q, q ≠ p → mem1.heap q = mem.heap q) := by
  have hd : cmd.clearDepth = true → DepthSized mem.heap fbo := by
    intro _ q hq
    have hqp : q = p := by simpa [hdata] using hq.symm
    subst hqp
    exact ⟨hbpp, hpitch, hsize⟩
  obtain ⟨heap2, hrun, _, hkeep, hdep, _⟩ := clear_spec mem cmd fbo hfbo hcolor hd
  refine ⟨_, hrun, hfbo, fun x y k hx hy hk => hdep hcd p hdata x y k hx hy hk, ?_⟩
  intro hcc q hne
  refine hkeep q (Or.inl hcc) (Or.inr ?_)
  rw [hdata]
  intro h
  exact hne (Option.some.inj h).symm

/-- C5: `clear` with `clearDepth` on a depth image whose pixels take at least
4 bytes, whose rows fit into the pitch and whose storage holds `height` rows
returns, and afterwards every pixel `(x, y)` of the active framebuffer's depth
image holds `cmd.depth`, unconverted, at
`y * depth.pitch + x * depth.bytesPerPixel`; and when `clearColor` is false
the storage of the colour image, a block other than the depth block, is
unchanged.  (If the colour is cleared too, the colour image is well sized.) -/
theorem clear_depth (mem : GPUMemory) (cmd : ClearCommand) (fbo : Framebuffer) (p : Nat)
    (hfbo : mem.framebuffers[mem.activatedFramebuffer]? = some fbo)
    (hdata : fbo.depth.data = some p)
    (hbpp : 4 ≤ fbo.depth.bytesPerPixel)
    (hpitch : fbo.width * fbo.depth.bytesPerPixel ≤ fbo.depth.pitch)
    (hsize : fbo.height * fbo.depth.pitch ≤ (mem.heap p).length)
    (hcd : cmd.clearDepth = true)
    (hcolor : cmd.clearColor = true → ColorSized mem.heap fbo) :
    ∃ mem1, clear mem cmd = some mem1 ∧
      mem1.framebuffers[mem1.activatedFramebuffer]? = some fbo ∧
      (∀ x y, x < fbo.width → y < fbo.height →
        readF32 (mem1.heap p) (y * fbo.depth.pitch + x * fbo.depth.bytesPerPixel)
          = some cmd.depth) ∧
      (cmd.clearColor = false → ∀ pc, fbo.color.data = some pc → pc ≠ p →
        mem1.heap pc = mem.heap pc) := by
  obtain ⟨mem1, hrun, hfb, hbytes, hkeep⟩ :=
    depth_bytes_after_clear mem cmd fbo p hfbo hdata hbpp hpitch hsize hcd hcolor
  refine ⟨mem1, hrun, hfb, ?_, ?_⟩
  · intro x y hx hy
    exact readF32_of_bytes (fun k hk => hbytes x y k hx hy hk)
  · intro hcc pc _ hne
    exact hkeep hcc pc hne

/-- Witness of C5: the depth of the 2 by 2 framebuffer cleared to `0.5`, the
colour left alone. -/
theorem clear_depth_witness :
    ∃ mem1, clear (exMem 0) (exClear 0 0 0 0 (1 / 2) false true) = some mem1 ∧
      mem1.framebuffers[mem1.activatedFramebuffer]? = some exFbFloat ∧
      (∀ x y, x < exFbFloat.width → y < exFbFloat.height →
        readF32 (mem1.heap 2) (y * exFbFloat.depth.pitch + x * exFbFloat.depth.bytesPerPixel)
          = some (exClear 0 0 0 0 (1 / 2) false true).depth) ∧
      ((exClear 0 0 0 0 (1 / 2) false true).clearColor = false →
        ∀ pc, exFbFloat.color.data = some pc → pc ≠ 2 → mem1.heap pc = (exMem 0).heap pc) :=
  clear_depth (exMem 0) (exClear 0 0 0 0 (1 / 2) false true) exFbFloat 2
    rfl rfl (by decide) (by decide) (by decide) rfl (fun h => absurd h (by decide))

/-- C6: a `clear` aimed at an absent attachment returns and changes nothing.
When the active framebuffer has no depth image, `clear` with `clearDepth` and
without `clearColor` returns the memory it was given; when it has no colour
image, `clear` with `clearColor` and without `clearDepth` does. -/
theorem clear_absent_attachment (mem : GPUMemory) (cmd : ClearCommand) (fbo : Framebuffer)
    (hfbo : mem.framebuffers[mem.activatedFramebuffer]? = some fbo) :
    (fbo.depth.data = none → cmd.clearDepth = true → cmd.clearColor = false →
      clear mem cmd = some mem) ∧
    (fbo.color.data = none → cmd.clearColor = true → cmd.clearDepth = false →
      clear mem cmd = some mem) := by
  constructor
  · intro hnd hcd hcc
    simp [clear, clearColorPart, clearDepthPart, hcc, hcd, hfbo, hnd]
  · intro hnc hcc hcd
    simp [clear, clearColorPart, clearDepthPart, hcc, hcd, hfbo, hnc]

/-- Witness of C6: the framebuffer with colour only is asked to clear its
depth, and the framebuffer with depth only is asked to clear its colour. -/
theorem clear_absent_attachment_witness :
    clear (exMem 1) (exClear 0 0 0 0 1 false true) = some (exMem 1) ∧
    clear (exMem 2) (exClear 1 1 1 1 0 true false) = some (exMem 2) :=
  ⟨(clear_absent_attachment (exMem 1) (exClear 0 0 0 0 1 false true) exFbByte rfl).1
      rfl rfl rfl,
    (clear_absent_attachment (exMem 2) (exClear 1 1 1 1 0 true false) exFbDepthOnly rfl).2
      rfl rfl rfl⟩

theorem exMem_allSized (fb : Nat) : AllSized (exMem fb) := by
  intro i f hf
  rcases i with _ | _ | _ | i
  · have hfe : f = exFbFloat := by simpa [exMem] using hf.symm
    subst hfe
    constructor
    · intro p hp
      have hp1 : p = 1 := by simpa [exFbFloat] using hp.symm
      subst hp1
      exact ⟨by decide, by decide, by simp [exMem, exHeap, zeroBlock, exFbFloat, exFbByte, exFbDepthOnly]⟩
    · intro p hp
      have hp1 : p = 2 := by simpa [exFbFloat] using hp.symm
      subst hp1
      exact ⟨by decide, by decide, by simp [exMem, exHeap, zeroBlock, exFbFloat, exFbByte, exFbDepthOnly]⟩
  · have hfe : f = exFbByte := by simpa [exMem] using hf.symm
    subst hfe
    constructor
    · intro p hp
      have hp1 : p = 3 := by simpa [exFbByte] using hp.symm
      subst hp1
      exact ⟨by decide, by decide, by simp [exMem, exHeap, zeroBlock, exFbFloat, exFbByte, exFbDepthOnly]⟩
    · intro p hp
      simp [exFbByte, noImage] at hp
  · have hfe : f = exFbDepthOnly := by simpa [exMem] using hf.symm
    subst hfe
    constructor
    · intro p hp
      simp [exFbDepthOnly, noImage] at hp
    · intro p hp
      have hp1 : p = 4 := by simpa [exFbDepthOnly] using hp.symm
      subst hp1
      exact ⟨by decide, by decide, by simp [exMem, exHeap, zeroBlock, exFbFloat, exFbByte, exFbDepthOnly]⟩
  · simp [exMem] at hf

theorem clearColorPart_shape {mem m1 : GPUMemory} {cmd : ClearCommand}
    (h : clearColorPart mem cmd = some m1) : ∃ heap1, m1 = { mem with heap := heap1 } := by
  unfold clearColorPart at h
  split at h
  · cases hf : mem.framebuffers[mem.activatedFramebuffer]? with
    | none => simp [hf] at h
    | some fbo =>
      simp only [hf, Option.bind_eq_bind, Option.some_bind] at h
      split at h
      · exact ⟨mem.heap, (Option.some.inj h).symm⟩
      · rename_i p _
        cases hl : clearColorLoops fbo cmd.color (mem.heap p) with
        | none => simp [hl] at h
        | some buf =>
          simp only [hl, Option.some_bind] at h
          exact ⟨_, (Option.some.inj h).symm⟩
  · exact ⟨mem.heap, (Option.some.inj h).symm⟩

theorem clearDepthPart_shape {mem m1 : GPUMemory} {cmd : ClearCommand}
    (h : clearDepthPart mem cmd = some m1) : ∃ heap1, m1 = { mem with heap := heap1 } := by
  unfold clearDepthPart at h
  split at h
  · cases hf : mem.framebuffers[mem.activatedFramebuffer]? with
    | none => simp [hf] at h
    | some fbo =>
      simp only [hf, Option.bind_eq_bind, Option.some_bind] at h
      split at h
      · exact ⟨mem.heap, (Option.some.inj h).symm⟩
      · rename_i p _
        cases hl : clearDepthLoops fbo cmd.depth (mem.heap p) with
        | none => simp [hl] at h
        | some buf =>
          simp only [hl, Option.some_bind] at h
          exact ⟨_, (Option.some.inj h).symm⟩
  · exact ⟨mem.heap, (Option.some.inj h).symm⟩

/-- Whenever `clear` returns, the memory it returns differs from the one it
was given in the heap only. -/
theorem clear_shape {mem m1 : GPUMemory} {cmd : ClearCommand}
    (h : clear mem cmd = some m1) : ∃ heap1, m1 = { mem with heap := heap1 } := by
  unfold clear at h
  cases hc : clearColorPart mem cmd with
  | none => simp [hc] at h
  | some m0 =>
    simp only [hc, Option.some_bind] at h
    obtain ⟨h0, e0⟩ := clearColorPart_shape hc
    obtain ⟨h1, e1⟩ := clearDepthPart_shape h
    subst e0
    exact ⟨h1, e1⟩

/-- C8: each of the four setters assigns `cmd.id` to one scalar of the memory
and leaves every other field as it was, for every memory and every id. -/
theorem setters_assign_one_field (mem : GPUMemory) (cf : BindFramebufferCommand)
    (cp : BindProgramCommand) (cv : BindVertexArrayCommand) (cd : SetDrawIdCommand) :
    ((bindFramebuffer mem cf).activatedFramebuffer = cf.id ∧
      (bindFramebuffer mem cf).activatedProgram = mem.activatedProgram ∧
      (bindFramebuffer mem cf).activatedVertexArray = mem.activatedVertexArray ∧
      (bindFramebuffer mem cf).gl_DrawID = mem.gl_DrawID ∧
      (bindFramebuffer mem cf).framebuffers = mem.framebuffers ∧
      (bindFramebuffer mem cf).heap = mem.heap ∧
      (bindFramebuffer mem cf).programs = mem.programs ∧
      (bindFramebuffer mem cf).vertexArrays = mem.vertexArrays) ∧
    ((bindProgram mem cp).activatedProgram = cp.id ∧
      (bindProgram mem cp).activatedFramebuffer = mem.activatedFramebuffer ∧
      (bindProgram mem cp).activatedVertexArray = mem.activatedVertexArray ∧
      (bindProgram mem cp).gl_DrawID = mem.gl_DrawID ∧
      (bindProgram mem cp).framebuffers = mem.framebuffers ∧
      (bindProgram mem cp).heap = mem.heap ∧
      (bindProgram mem cp).programs = mem.programs ∧
      (bindProgram mem cp).vertexArrays = mem.vertexArrays) ∧
    ((bindVertexArray mem cv).activatedVertexArray = cv.id ∧
      (bindVertexArray mem cv).activatedFramebuffer = mem.activatedFramebuffer ∧
      (bindVertexArray mem cv).activatedProgram = mem.activatedProgram ∧
      (bindVertexArray mem cv).gl_DrawID = mem.gl_DrawID ∧
      (bindVertexArray mem cv).framebuffers = mem.framebuffers ∧
      (bindVertexArray mem cv).heap = mem.heap ∧
      (bindVertexArray mem cv).programs = mem.programs ∧
      (bindVertexArray mem cv).vertexArrays = mem.vertexArrays) ∧
    ((setDrawId mem cd).gl_DrawID = cd.id ∧
      (setDrawId mem cd).activatedFramebuffer = mem.activatedFramebuffer ∧
      (setDrawId mem cd).activatedProgram = mem.activatedProgram ∧
      (setDrawId mem cd).activatedVertexArray = mem.activatedVertexArray ∧
      (setDrawId mem cd).framebuffers = mem.framebuffers ∧
      (setDrawId mem cd).heap = mem.heap ∧
      (setDrawId mem cd).programs = mem.programs ∧
      (setDrawId mem cd).vertexArrays = mem.vertexArrays) :=
  ⟨⟨rfl, rfl, rfl, rfl, rfl, rfl, rfl, rfl⟩, ⟨rfl, rfl, rfl, rfl, rfl, rfl, rfl, rfl⟩,
    ⟨rfl, rfl, rfl, rfl, rfl, rfl, rfl, rfl⟩, ⟨rfl, rfl, rfl, rfl, rfl, rfl, rfl, rfl⟩⟩

theorem forLoop_append_const {α : Type} (c : α) (n : Nat) (l : List α) :
    forLoop n (fun _ log => some (log ++ [c])) l = some (l ++ List.replicate n c) := by
  induction n with
  | zero => simp [forLoop]
  | succ n ih =>
    simp only [forLoop, ih, Option.some_bind]
    rw [List.replicate_succ', List.append_assoc]

/-- The function `draw` in closed form: with an active program it returns the
memory it was given and `nofVertices` copies of one shader call. -/
theorem draw_eq (mem : GPUMemory) (cmd : DrawCommand) (prog : Program)
    (hprog : mem.programs[mem.activatedProgram]? = some prog) :
    draw mem cmd = some (mem, List.replicate cmd.nofVertices (drawCall mem prog)) := by
  have h := forLoop_append_const (drawCall mem prog) cmd.nofVertices []
  simp only [List.nil_append] at h
  simp only [draw, hprog, Option.bind_eq_bind, Option.some_bind]
  simp only [drawCall] at h
  rw [h]
  rfl

theorem zeroBlock_length (n : Nat) : (zeroBlock n).length = n := by
  simp [zeroBlock]

/-- C9, the code at the failing input: the 4 by 4 framebuffer is cleared to
the colour `(0, 0, 0, 0)` and the depth 1, then 3 vertices are drawn with any
program.  `draw` returns, and every colour pixel still holds the cleared
colour and every depth pixel the cleared depth: nothing was rendered. -/
theorem draw_renders_nothing (prog : Program) :
    ∃ mem1 r, clear (exMem4 prog) (exClear 0 0 0 0 1 true true) = some mem1 ∧
      draw mem1 { nofVertices := 3 } = some r ∧
      ∀ x y, x < 4 → y < 4 →
        readF32 (r.1.heap 1) (y * 64 + x * 16) = some 0 ∧
        readF32 (r.1.heap 1) (y * 64 + x * 16 + 4) = some 0 ∧
        readF32 (r.1.heap 1) (y * 64 + x * 16 + 8) = some 0 ∧
        readF32 (r.1.heap 1) (y * 64 + x * 16 + 12) = some 0 ∧
        readF32 (r.1.heap 2) (y * 16 + x * 4) = some 1 := by
  have hfbo : (exMem4 prog).framebuffers[(exMem4 prog).activatedFramebuffer]? = some exFb4 :=
    rfl
  have hcs : exFb4.height * exFb4.color.pitch ≤ ((exMem4 prog).heap 1).length := by
    show exFb4.height * exFb4.color.pitch ≤ (zeroBlock 256).length
    rw [zeroBlock_length]
    decide
  have hds : exFb4.height * exFb4.depth.pitch ≤ ((exMem4 prog).heap 2).length := by
    show exFb4.height * exFb4.depth.pitch ≤ (zeroBlock 64).length
    rw [zeroBlock_length]
    decide
  have hc : ColorSized (exMem4 prog).heap exFb4 := by
    intro p hp
    have hp1 : p = 1 := by simpa [exFb4] using hp.symm
    subst hp1
    exact ⟨by decide, by decide, hcs⟩
  have hd : DepthSized (exMem4 prog).heap exFb4 := by
    intro p hp
    have hp1 : p = 2 := by simpa [exFb4] using hp.symm
    subst hp1
    exact ⟨by decide, by decide, hds⟩
  obtain ⟨mem1, hrun, _, hcol⟩ :=
    color_bytes_after_clear (exMem4 prog) (exClear 0 0 0 0 1 true true) exFb4 1 hfbo rfl
      (by decide) (by decide) hcs rfl (fun _ => ⟨hd, by decide⟩)
  obtain ⟨mem2, hrun2, _, hdep, _⟩ :=
    depth_bytes_after_clear (exMem4 prog) (exClear 0 0 0 0 1 true true) exFb4 2 hfbo rfl
      (by decide) (by decide) hds rfl (fun _ => hc)
  have hmem : mem2 = mem1 := by
    rw [hrun] at hrun2
    exact (Option.some.inj hrun2).symm
  subst hmem
  have hp : mem2.programs[mem2.activatedProgram]? = some prog := by
    obtain ⟨heap1, e⟩ := clear_shape hrun
    subst e
    rfl
  refine ⟨mem2, _, hrun, draw_eq mem2 _ prog hp, ?_⟩
  intro x y hx hy
  have hfour := readF32_of_color_bytes
    (fun k (hk : k < 16) => hcol x y k hx hy hk)
  exact ⟨hfour.1, hfour.2.1, hfour.2.2.1, hfour.2.2.2,
    readF32_of_bytes (fun k hk => hdep x y k hx hy hk)⟩

/-- C10: with an active program, `bindFramebuffer` of `i` followed by `draw`
returns, and every framebuffer at an index `j` other than `i` keeps its
description and the contents of its colour and depth storage. -/
theorem bind_draw_keeps_other_framebuffers (mem : GPUMemory) (i j : Nat) (cmd : DrawCommand)
    (hprog : mem.activatedProgram < mem.programs.length) :
    ∃ r, draw (bindFramebuffer mem { id := i }) cmd = some r ∧
      (j ≠ i → ∀ fj : Framebuffer, mem.framebuffers[j]? = some fj →
        r.1.framebuffers[j]? = some fj ∧ ∀ q, fj.Uses q → r.1.heap q = mem.heap q) := by
  have hget : mem.programs[mem.activatedProgram]? = some (mem.programs[mem.activatedProgram]) :=
    List.getElem?_eq_getElem hprog
  refine ⟨_, draw_eq (bindFramebuffer mem { id := i }) cmd _ hget, ?_⟩
  intro _ fj hfj
  exact ⟨hfj, fun q _ => rfl⟩

/-- Witness of C10: framebuffer 0 is bound and 3 vertices are drawn;
framebuffer 1 is the sibling. -/
theorem bind_draw_keeps_other_framebuffers_witness :
    ∃ r, draw (bindFramebuffer (exMem 2) { id := 0 }) { nofVertices := 3 } = some r ∧
      (1 ≠ 0 → ∀ fj : Framebuffer, (exMem 2).framebuffers[1]? = some fj →
        r.1.framebuffers[1]? = some fj ∧ ∀ q, fj.Uses q → r.1.heap q = (exMem 2).heap q) :=
  bind_draw_keeps_other_framebuffers (exMem 2) 0 1 { nofVertices := 3 } (by decide)

theorem forLoop_congr {σ : Type} {f g : Nat → σ → Option σ} :
    ∀ (n : Nat) (s : σ), (∀ i, i < n → ∀ t, f i t = g i t) → forLoop n f s = forLoop n g s := by
  intro n
  induction n with
  | zero => intro s _; rfl
  | succ n ih =>
    intro s h
    simp only [forLoop]
    rw [ih s (fun i hi t => h i (by omega) t)]
    cases forLoop n g s with
    | none => rfl
    | some t => simp only [Option.some_bind]; exact h n (by omega) t

/-- The loop of `izg_enqueue` over a buffer that ends in `c`: the loop over
the commands before `c`, then `c`. -/
theorem izg_enqueue_snoc (mem : GPUMemory) (cb : CommandBuffer) (c : Command) :
    izg_enqueue mem (cb ++ [c]) = (izg_enqueue mem cb).bind (runCommand c) := by
  unfold izg_enqueue CommandBuffer.nofCommands
  rw [List.length_append, List.length_singleton]
  simp only [forLoop]
  have hcongr : forLoop cb.length
      (fun i st => match (cb ++ [c])[i]? with
        | some c => runCommand c st
        | none => none) ({ mem with gl_DrawID := 0 }, []) =
      forLoop cb.length
      (fun i st => match cb[i]? with
        | some c => runCommand c st
        | none => none) ({ mem with gl_DrawID := 0 }, []) := by
    apply forLoop_congr
    intro i hi t
    simp only [List.getElem?_append_left hi]
  rw [hcongr]
  congr 1
  funext st
  simp

theorem izg_enqueue_nil (mem : GPUMemory) :
    izg_enqueue mem [] = some ({ mem with gl_DrawID := 0 }, []) := rfl

theorem runCommand_drawID {c : Command} {st st1 : GPUMemory × List VSCall}
    (h : runCommand c st = some st1) : st1.1.gl_DrawID = nextDrawID c st.1.gl_DrawID := by
  unfold runCommand at h
  cases ht : c.type
  · -- CLEAR
    cases hcl : clear st.1 c.data.clearCommand with
    | none => simp [ht, hcl] at h
    | some m =>
      obtain ⟨heap1, e⟩ := clear_shape hcl
      simp [ht, hcl, sub] at h
      rw [← h, e]
      simp [nextDrawID, ht]
  · simp [ht, sub, bindFramebuffer] at h
    rw [← h]
    simp [nextDrawID, ht]
  · simp [ht, sub, bindProgram] at h
    rw [← h]
    simp [nextDrawID, ht]
  · simp [ht, sub, bindVertexArray] at h
    rw [← h]
    simp [nextDrawID, ht]
  · -- DRAW
    cases hp : st.1.programs[st.1.activatedProgram]? with
    | none => simp [ht, draw, hp] at h
    | some prog =>
      simp [ht, draw_eq st.1 _ prog hp, sub] at h
      rw [← h]
      simp [nextDrawID, ht]
  · simp [ht, sub, setDrawId] at h
    rw [← h]
    simp [nextDrawID, ht]
  · simp [ht, sub] at h
    rw [← h]
    simp [nextDrawID, ht]

theorem enqueue_drawID_fold (mem : GPUMemory) (cb : CommandBuffer) :
    ∀ r, izg_enqueue mem cb = some r →
      r.1.gl_DrawID = cb.foldl (fun d c => nextDrawID c d) 0 := by
  induction cb using List.reverseRecOn with
  | nil =>
    intro r h
    rw [izg_enqueue_nil] at h
    rw [← Option.some.inj h]
    rfl
  | append_singleton cb c ih =>
    intro r h
    rw [izg_enqueue_snoc] at h
    cases hr : izg_enqueue mem cb with
    | none => simp [hr] at h
    | some r0 =>
      simp only [hr, Option.some_bind] at h
      rw [runCommand_drawID h, ih r0 hr, List.foldl_append]
      rfl

theorem foldl_nextDrawID_eq (cb : CommandBuffer)
    (hid : ∀ c ∈ cb, c.type = CommandType.SET_DRAW_ID → c.data.setDrawIdCommand.id < 2 ^ 32) :
    cb.foldl (fun d c => nextDrawID c d) 0 = expectedDrawID cb := by
  induction cb using List.reverseRecOn with
  | nil => rfl
  | append_singleton cb c ih =>
    have ih1 := ih (fun c1 hc1 => hid c1 (List.mem_append_left _ hc1))
    rw [List.foldl_append, ih1]
    simp only [List.foldl_cons, List.foldl_nil]
    by_cases hs : c.type = CommandType.SET_DRAW_ID
    · have hlt := hid c (by simp) hs
      simp [nextDrawID, hs, expectedDrawID, lastSetDrawId, afterLastSetDrawId, nofDraws]
      exact (Nat.mod_eq_of_lt hlt).symm
    · by_cases hd : c.type = CommandType.DRAW
      · simp [nextDrawID, hd, expectedDrawID, lastSetDrawId, afterLastSetDrawId, nofDraws]
        omega
      · simp [nextDrawID, hs, hd, expectedDrawID, lastSetDrawId, afterLastSetDrawId, nofDraws]

theorem runCommand_ok (mem : GPUMemory) {c : Command} {st : GPUMemory × List VSCall}
    (hs : AllSized mem) (hst : StateOK mem st) (hc : CommandOK mem c) :
    ∃ st1, runCommand c st = some st1 ∧ StateOK mem st1 := by
  obtain ⟨hfb, hpr, hlen, haf, hap⟩ := hst
  unfold runCommand
  cases ht : c.type
  · -- CLEAR
    have hidx : st.1.activatedFramebuffer < st.1.framebuffers.length := by rw [hfb]; exact haf
    have hfbo := List.getElem?_eq_getElem hidx
    obtain ⟨hcs, hds⟩ := hs st.1.activatedFramebuffer _ (by rw [← hfb]; exact hfbo)
    have hcs1 : ColorSized st.1.heap (st.1.framebuffers[st.1.activatedFramebuffer]) := by
      intro p hp
      obtain ⟨h1, h2, h3⟩ := hcs p hp
      exact ⟨h1, h2, by rw [hlen p]; exact h3⟩
    have hds1 : DepthSized st.1.heap (st.1.framebuffers[st.1.activatedFramebuffer]) := by
      intro p hp
      obtain ⟨h1, h2, h3⟩ := hds p hp
      exact ⟨h1, h2, by rw [hlen p]; exact h3⟩
    obtain ⟨heap2, hrun, hlen2, _⟩ :=
      clear_spec st.1 c.data.clearCommand _ hfbo (fun _ => hcs1) (fun _ => hds1)
    refine ⟨({ st.1 with heap := heap2 }, st.2), ?_, hfb, hpr, ?_, haf, hap⟩
    · simp [hrun, sub]
    · intro q
      rw [← hlen q]
      exact hlen2 q
  · exact ⟨(bindFramebuffer st.1 c.data.bindFramebufferCommand, st.2), by simp [sub],
      hfb, hpr, hlen, hc.1 ht, hap⟩
  · exact ⟨(bindProgram st.1 c.data.bindProgramCommand, st.2), by simp [sub],
      hfb, hpr, hlen, haf, hc.2 ht⟩
  · exact ⟨(bindVertexArray st.1 c.data.bindVertexArrayCommand, st.2), by simp [sub],
      hfb, hpr, hlen, haf, hap⟩
  · -- DRAW
    have hidx : st.1.activatedProgram < st.1.programs.length := by rw [hpr]; exact hap
    have hp := List.getElem?_eq_getElem hidx
    refine ⟨({ st.1 with gl_DrawID := (st.1.gl_DrawID + 1) % 2 ^ 32 },
      st.2 ++ List.replicate c.data.drawCommand.nofVertices (drawCall st.1 (st.1.programs[st.1.activatedProgram]))), ?_,
      hfb, hpr, hlen, haf, hap⟩
    simp [draw_eq st.1 _ _ hp, sub]
  · exact ⟨(setDrawId st.1 c.data.setDrawIdCommand, st.2), by simp [sub],
      hfb, hpr, hlen, haf, hap⟩
  · exact ⟨(st.1, st.2), by simp [sub], hfb, hpr, hlen, haf, hap⟩

/-- On a runnable memory and command buffer `izg_enqueue` returns. -/
theorem izg_enqueue_runs (mem : GPUMemory) (cb : CommandBuffer) (h : Runnable mem cb) :
    ∃ r, izg_enqueue mem cb = some r ∧ StateOK mem r := by
  obtain ⟨hs, haf, hap, hcs⟩ := h
  induction cb using List.reverseRecOn with
  | nil => exact ⟨_, izg_enqueue_nil mem, rfl, rfl, fun _ => rfl, haf, hap⟩
  | append_singleton cb c ih =>
    obtain ⟨r0, hr0, hok0⟩ := ih (fun c1 hc1 => hcs c1 (List.mem_append_left _ hc1))
    obtain ⟨r1, hr1, hok1⟩ := runCommand_ok mem hs hok0 (hcs c (by simp))
    exact ⟨r1, by rw [izg_enqueue_snoc, hr0]; exact hr1, hok1⟩

theorem expectedDrawID_of_no_set (cb : CommandBuffer)
    (hno : ∀ c ∈ cb, c.type ≠ CommandType.SET_DRAW_ID) (hlen : cb.length < 2 ^ 32) :
    expectedDrawID cb = nofDraws cb := by
  have hfind : cb.reverse.find? (fun c => decide (c.type = CommandType.SET_DRAW_ID)) = none := by
    rw [List.find?_eq_none]
    intro c hc
    simpa using hno c (List.mem_reverse.mp hc)
  have htake : cb.reverse.takeWhile (fun c => decide (c.type ≠ CommandType.SET_DRAW_ID))
      = cb.reverse := by
    rw [List.takeWhile_eq_self_iff]
    intro c hc
    simpa using hno c (List.mem_reverse.mp hc)
  have hle : nofDraws cb ≤ cb.length := List.countP_le_length _
  unfold expectedDrawID lastSetDrawId afterLastSetDrawId
  rw [hfind, htake, List.reverse_reverse]
  simp only [Nat.zero_add]
  exact Nat.mod_eq_of_lt (by omega)

/-- C1: after `izg_enqueue` the draw id is `(b + k)` modulo `2 ^ 32`, where `b`
is the id of the last `SET_DRAW_ID` command of the buffer (0 if there is none)
and `k` the number of `DRAW` commands after it, whatever the draw id was
before the call: every result of `izg_enqueue` has this draw id; on a runnable
memory and buffer `izg_enqueue` returns such a result; and for a buffer without
`SET_DRAW_ID` the number is the number of `DRAW` commands.  The ids of the
`SET_DRAW_ID` commands are 32-bit values. -/
theorem izg_enqueue_drawID (mem : GPUMemory) (cb : CommandBuffer)
    (hid : ∀ c ∈ cb, c.type = CommandType.SET_DRAW_ID → c.data.setDrawIdCommand.id < 2 ^ 32) :
    (∀ r, izg_enqueue mem cb = some r → r.1.gl_DrawID = expectedDrawID cb) ∧
    (Runnable mem cb → ∃ r, izg_enqueue mem cb = some r ∧ r.1.gl_DrawID = expectedDrawID cb) ∧
    ((∀ c ∈ cb, c.type ≠ CommandType.SET_DRAW_ID) → cb.length < 2 ^ 32 →
      expectedDrawID cb = nofDraws cb) := by
  have hval : ∀ r, izg_enqueue mem cb = some r → r.1.gl_DrawID = expectedDrawID cb := by
    intro r hr
    rw [enqueue_drawID_fold mem cb r hr, foldl_nextDrawID_eq cb hid]
  refine ⟨hval, ?_, expectedDrawID_of_no_set cb⟩
  intro hrun
  obtain ⟨r, hr, _⟩ := izg_enqueue_runs mem cb hrun
  exact ⟨r, hr, hval r hr⟩

/-- Witness of C1: the example buffer run on the example memory, whose draw id
is 7 before the call, ends with the draw id 9. -/
theorem izg_enqueue_drawID_witness :
    ∃ r, izg_enqueue (exMem 0) exBuffer = some r ∧ r.1.gl_DrawID = 9 := by
  have hid : ∀ c ∈ exBuffer,
      c.type = CommandType.SET_DRAW_ID → c.data.setDrawIdCommand.id < 2 ^ 32 := by
    intro c hc
    simp only [exBuffer, List.mem_cons, List.mem_singleton, List.not_mem_nil, or_false] at hc
    rcases hc with rfl | rfl | rfl | rfl | rfl | rfl | rfl <;> simp [noData]
  have hrun : Runnable (exMem 0) exBuffer := by
    refine ⟨exMem_allSized 0, by decide, by decide, ?_⟩
    intro c hc
    simp only [exBuffer, List.mem_cons, List.mem_singleton, List.not_mem_nil, or_false] at hc
    rcases hc with rfl | rfl | rfl | rfl | rfl | rfl | rfl <;> simp [CommandOK, noData, exMem]
  obtain ⟨r, hr, hval⟩ := (izg_enqueue_drawID (exMem 0) exBuffer hid).2.1 hrun
  have hexp : expectedDrawID exBuffer = 9 := by decide
  exact ⟨r, hr, by rw [hval, hexp]⟩

/-! ## Textures -/

/-- C11: for a pixel with `pix.x >= width` or `pix.y >= height`, `texelFetch`
returns `(0, 0, 0, 1)` whatever the texture, its image and the heap are; in
particular on a heap without any storage, where every load faults, so no
pixel storage is read. -/
theorem texelFetch_outside (texture : Texture) (pix : UVec2)
    (hout : pix.x ≥ texture.width ∨ pix.y ≥ texture.height) :
    (∀ heap : Nat → Buffer,
      texelFetch heap texture pix = some { r := 0, g := 0, b := 0, a := 1 }) ∧
    texelFetch (fun _ => []) texture pix = some { r := 0, g := 0, b := 0, a := 1 } := by
  have h : ∀ heap : Nat → Buffer,
      texelFetch heap texture pix = some { r := 0, g := 0, b := 0, a := 1 } := by
    intro heap
    unfold texelFetch
    rw [if_pos hout]
  exact ⟨h, h _⟩

/-- Witness of C11: pixel `(4, 0)` of the 4 by 1 example texture. -/
theorem texelFetch_outside_witness :
    (∀ heap : Nat → Buffer,
      texelFetch heap exTexture { x := 4, y := 0 } = some { r := 0, g := 0, b := 0, a := 1 }) ∧
    texelFetch (fun _ => []) exTexture { x := 4, y := 0 }
      = some { r := 0, g := 0, b := 0, a := 1 } :=
  texelFetch_outside exTexture { x := 4, y := 0 } (Or.inl (by decide))

/-- C12, the code at the failing input: for the in-bounds pixel `(0, 0)` of a
1 by 1 texture whose image has no storage, `texelFetch` loads a channel
through the null pointer and faults, on every heap. -/
theorem texelFetch_null_data_faults (heap : Nat → Buffer) :
    texelFetch heap exTexNull { x := 0, y := 0 } = none := by
  rfl

theorem fract_add_one (f : ℚ) : fract (f + 1) = fract f := by
  unfold fract
  rw [Int.floor_add_one]
  congr 1
  push_cast
  ring

/-- C14: `read_texture` at `uv + (1, 0)` equals `read_texture` at `uv`, for
every heap, texture and `uv`; in particular `(1.5, 0.5)` gives the result of
`(0.5, 0.5)`. -/
theorem read_texture_wrap (heap : Nat → Buffer) (texture : Texture) (uv : Vec2) :
    read_texture heap texture { x := uv.x + 1, y := uv.y } = read_texture heap texture uv ∧
    read_texture heap texture { x := 3 / 2, y := 1 / 2 }
      = read_texture heap texture { x := 1 / 2, y := 1 / 2 } := by
  have hpix : ∀ u v : ℚ, wrapPixel texture { x := u + 1, y := v }
      = wrapPixel texture { x := u, y := v } := by
    intro u v
    simp only [wrapPixel, wrapCoord, fract_add_one]
  constructor
  · unfold read_texture
    rw [hpix]
  · have h := hpix (1 / 2) (1 / 2)
    have e : (1 / 2 : ℚ) + 1 = 3 / 2 := by norm_num
    rw [e] at h
    unfold read_texture
    rw [h]

theorem clamp01_idem (f : ℚ) : clamp01 (clamp01 f) = clamp01 f := by
  have h0 : (0 : ℚ) ≤ min (max f 0) 1 := le_min (le_max_right f 0) (by norm_num)
  unfold clamp01
  rw [max_eq_left h0, min_eq_left (min_le_right _ _)]

/-- C15: `read_textureClamp` at `uv` equals `read_textureClamp` at `uv`
clamped to `[0, 1]` in each component, for every heap, texture and `uv`; in
particular `(-0.5, 0.5)` gives the result of `(0, 0.5)`. -/
theorem read_textureClamp_clamp (heap : Nat → Buffer) (texture : Texture) (uv : Vec2) :
    read_textureClamp heap texture uv
      = read_textureClamp heap texture { x := clamp01 uv.x, y := clamp01 uv.y } ∧
    read_textureClamp heap texture { x := -1 / 2, y := 1 / 2 }
      = read_textureClamp heap texture { x := 0, y := 1 / 2 } := by
  have hpix : ∀ w : Vec2, clampPixel texture w
      = clampPixel texture { x := clamp01 w.x, y := clamp01 w.y } := by
    intro w
    simp only [clampPixel, clamp01_idem]
  constructor
  · unfold read_textureClamp
    rw [hpix uv]
  · have h := hpix { x := -1 / 2, y := 1 / 2 }
    have e0 : clamp01 (-1 / 2) = 0 := by
      unfold clamp01
      rw [max_eq_right (by norm_num), min_eq_left (by norm_num)]
    have e1 : clamp01 (1 / 2) = 1 / 2 := by
      unfold clamp01
      rw [max_eq_left (by norm_num), min_eq_left (by norm_num)]
    simp only [e0, e1] at h
    unfold read_textureClamp
    rw [h]

/-- C17: with an active program `prog`, `draw` with `nofVertices = n` returns
the memory it was given, so `gl_DrawID` is unchanged, and makes exactly `n`
calls, each of the vertex shader of `prog` with a `ShaderInterface` whose
`gl_DrawID` is the one of the memory at the start of the draw.  The increment
is made by `izg_enqueue`: its loop body for a `DRAW` command returns the
memory with `gl_DrawID` incremented and the calls of the draw appended. -/
theorem draw_calls_vertex_shader (mem : GPUMemory) (cmd : DrawCommand) (prog : Program)
    (hprog : mem.programs[mem.activatedProgram]? = some prog) :
    ∃ calls, draw mem cmd = some (mem, calls) ∧
      calls.length = cmd.nofVertices ∧
      (∀ c ∈ calls, c.shader = prog.vertexShader ∧ c.si.gl_DrawID = mem.gl_DrawID) ∧
      (∀ (c : Command) (log : List VSCall), c.type = CommandType.DRAW →
        c.data.drawCommand = cmd →
        runCommand c (mem, log) =
          some ({ mem with gl_DrawID := (mem.gl_DrawID + 1) % 2 ^ 32 }, log ++ calls)) := by
  refine ⟨List.replicate cmd.nofVertices (drawCall mem prog), draw_eq mem cmd prog hprog,
    List.length_replicate _ _, ?_, ?_⟩
  · intro c hc
    rw [List.eq_of_mem_replicate hc]
    exact ⟨rfl, rfl⟩
  · intro c log ht hcmd
    unfold runCommand
    simp [ht, hcmd, draw_eq mem cmd prog hprog, sub]

/-- Witness of C17: a draw of 0 vertices and a draw of 7 vertices on the
example memory, whose draw id is 7. -/
theorem draw_calls_vertex_shader_witness :
    (∃ calls, draw (exMem 0) { nofVertices := 0 } = some (exMem 0, calls) ∧
      calls.length = 0) ∧
    (∃ calls, draw (exMem 0) { nofVertices := 7 } = some (exMem 0, calls) ∧
      calls.length = 7 ∧
      ∀ c ∈ calls, c.shader = exProgram.vertexShader ∧ c.si.gl_DrawID = 7) := by
  obtain ⟨c0, h0, l0, _, _⟩ :=
    draw_calls_vertex_shader (exMem 0) { nofVertices := 0 } exProgram rfl
  obtain ⟨c7, h7, l7, s7, _⟩ :=
    draw_calls_vertex_shader (exMem 0) { nofVertices := 7 } exProgram rfl
  exact ⟨⟨c0, h0, l0⟩, ⟨c7, h7, l7, s7⟩⟩

theorem f32Quantum_pos (x : ℚ) : 0 < f32Quantum x := by
  unfold f32Quantum
  positivity

theorem floor_le_roundEven (r : ℚ) : ⌊r⌋ ≤ roundEven r := by
  unfold roundEven
  split_ifs <;> omega

theorem roundEven_le_floor_add_one (r : ℚ) : roundEven r ≤ ⌊r⌋ + 1 := by
  unfold roundEven
  split_ifs <;> omega

theorem roundEven_le {r : ℚ} {k : ℤ} (h : r ≤ k) : roundEven r ≤ k := by
  have hfl : ⌊r⌋ ≤ k := by
    have := Int.floor_le r
    exact_mod_cast this.trans h
  by_cases hint : r - ⌊r⌋ < 1 / 2
  · unfold roundEven
    rw [if_pos hint]
    exact hfl
  · have hlt : (⌊r⌋ : ℚ) < k := by
      have hh : (1 : ℚ) / 2 ≤ r - ⌊r⌋ := not_lt.mp hint
      linarith
    have hlt2 : ⌊r⌋ < k := by exact_mod_cast hlt
    have := roundEven_le_floor_add_one r
    omega

theorem le_roundEven {r : ℚ} {k : ℤ} (h : (k : ℚ) ≤ r) : k ≤ roundEven r :=
  (Int.le_floor.mpr h).trans (floor_le_roundEven r)

theorem abs_roundEven_sub (r : ℚ) : |(roundEven r : ℚ) - r| ≤ 1 / 2 := by
  have h1 := Int.floor_le r
  have h2 := Int.lt_floor_add_one r
  rw [abs_le]
  unfold roundEven
  split_ifs with ha hb hc
  · constructor <;> linarith
  · push_cast
    constructor <;> linarith
  · have hh : r - ⌊r⌋ = 1 / 2 := le_antisymm (not_lt.mp hb) (not_lt.mp ha)
    constructor <;> linarith
  · have hh : r - ⌊r⌋ = 1 / 2 := le_antisymm (not_lt.mp hb) (not_lt.mp ha)
    push_cast
    constructor <;> linarith

theorem roundEven_intCast (k : ℤ) : roundEven (k : ℚ) = k := by
  apply le_antisymm
  · exact roundEven_le (le_refl _)
  · exact le_roundEven (le_refl _)

theorem f32_nonneg {x : ℚ} (hx : 0 ≤ x) : 0 ≤ f32 x := by
  unfold f32
  have hq := f32Quantum_pos x
  have hr : ((0 : ℤ) : ℚ) ≤ x / f32Quantum x := by
    rw [Int.cast_zero]
    positivity
  have hk : (0 : ℤ) ≤ roundEven (x / f32Quantum x) := le_roundEven hr
  have hk2 : (0 : ℚ) ≤ (roundEven (x / f32Quantum x) : ℚ) := by exact_mod_cast hk
  positivity

theorem f32_zero : f32 0 = 0 := by
  unfold f32
  rw [zero_div]
  have : roundEven 0 = 0 := by
    have := roundEven_intCast 0
    simpa using this
  rw [this]
  simp

/-- Rounding does not pass a multiple of the spacing that lies above. -/
theorem f32_le_of_le_mul {x : ℚ} {k : ℤ} (h : x ≤ (k : ℚ) * f32Quantum x) :
    f32 x ≤ (k : ℚ) * f32Quantum x := by
  unfold f32
  have hq := f32Quantum_pos x
  have hr : x / f32Quantum x ≤ (k : ℚ) := by
    rw [div_le_iff₀ hq]
    exact h
  have hk : roundEven (x / f32Quantum x) ≤ k := roundEven_le hr
  have hk2 : (roundEven (x / f32Quantum x) : ℚ) ≤ (k : ℚ) := by exact_mod_cast hk
  exact mul_le_mul_of_nonneg_right hk2 hq.le

/-- The error of rounding is at most half the spacing. -/
theorem abs_f32_sub (x : ℚ) : |f32 x - x| ≤ f32Quantum x / 2 := by
  have hq := f32Quantum_pos x
  have h := abs_roundEven_sub (x / f32Quantum x)
  have e : f32 x - x = ((roundEven (x / f32Quantum x) : ℚ) - x / f32Quantum x) * f32Quantum x := by
    unfold f32
    field_simp
  rw [e, abs_mul, abs_of_pos hq]
  calc |(roundEven (x / f32Quantum x) : ℚ) - x / f32Quantum x| * f32Quantum x
      ≤ 1 / 2 * f32Quantum x := mul_le_mul_of_nonneg_right h hq.le
    _ = f32Quantum x / 2 := by ring

theorem f32_of_isF32 {b : ℚ} (hb : IsF32 b) : f32 b = b := by
  obtain ⟨m, hm⟩ := hb
  have hq := f32Quantum_pos b
  have hr : b / f32Quantum b = (m : ℚ) := by
    rw [div_eq_iff hq.ne']
    exact hm
  unfold f32
  rw [hr, roundEven_intCast]
  exact hm.symm


theorem f32Quantum_eq_mul {x b : ℚ} (hx : 0 < x) (hxb : x ≤ b) :
    ∃ n : ℕ, f32Quantum b = (2 : ℚ) ^ n * f32Quantum x := by
  have hb : 0 < b := lt_of_lt_of_le hx hxb
  have hlog : Int.log 2 |x| ≤ Int.log 2 |b| := by
    rw [abs_of_pos hx, abs_of_pos hb]
    exact Int.log_mono_right hx hxb
  have hex : max (Int.log 2 |x|) (-126) ≤ max (Int.log 2 |b|) (-126) :=
    max_le_max hlog (le_refl _)
  refine ⟨(max (Int.log 2 |b|) (-126) - max (Int.log 2 |x|) (-126)).toNat, ?_⟩
  unfold f32Quantum
  rw [← zpow_natCast, ← zpow_add₀ (by norm_num : (2 : ℚ) ≠ 0)]
  congr 1
  rw [Int.toNat_of_nonneg (by omega)]
  ring

/-- Rounding a value between 0 and a binary32 value `b` does not pass `b`. -/
theorem f32_le {x b : ℚ} (hx : 0 ≤ x) (hxb : x ≤ b) (hb : IsF32 b) : f32 x ≤ b := by
  rcases hx.eq_or_lt with h0 | hpos
  · rw [← h0, f32_zero]
    rw [← h0] at hxb
    exact hxb
  · obtain ⟨m, hm⟩ := hb
    obtain ⟨n, hn⟩ := f32Quantum_eq_mul hpos hxb
    have hbk : b = ((m * 2 ^ n : ℤ) : ℚ) * f32Quantum x := by
      rw [hm, hn]
      push_cast
      rw [hm, hn] at *
      ring
    have := @f32_le_of_le_mul x (m * 2 ^ n) (hbk ▸ hxb)
    rw [hbk]
    exact this

/-- A positive multiple `z * 2 ^ j` of a power of two, with `j` at least
`-149`, that lies below `2 ^ (j + 24)` is a binary32 value. -/
theorem isF32_of_mul_zpow {b : ℚ} (z j : ℤ) (hb : 0 < b) (hz : b = (z : ℚ) * (2 : ℚ) ^ j)
    (hj : -149 ≤ j) (hlt : b < (2 : ℚ) ^ (j + 24)) : IsF32 b := by
  have hlog : Int.log 2 |b| < j + 24 := by
    rw [abs_of_pos hb]
    have := (Int.lt_zpow_iff_log_lt (R := ℚ) (b := 2) (by norm_num) hb (x := j + 24)).mp
      (by exact_mod_cast hlt)
    exact this
  have hd : 0 ≤ j - (max (Int.log 2 |b|) (-126) - 23) := by
    rcases max_cases (Int.log 2 |b|) (-126) with ⟨h, _⟩ | ⟨h, _⟩ <;> rw [h] <;> omega
  refine ⟨z * 2 ^ (j - (max (Int.log 2 |b|) (-126) - 23)).toNat, ?_⟩
  unfold f32Quantum
  push_cast
  rw [mul_assoc, ← zpow_natCast, ← zpow_add₀ (by norm_num : (2 : ℚ) ≠ 0),
    Int.toNat_of_nonneg hd]
  rw [show j - (max (Int.log 2 |b|) (-126) - 23) + (max (Int.log 2 |b|) (-126) - 23) = j by ring]
  exact hz

theorem isF32_zero : IsF32 0 :=
  ⟨0, by simp⟩

theorem isF32_natCast {n : ℕ} (h : n < 2 ^ 24) : IsF32 (n : ℚ) := by
  rcases Nat.eq_zero_or_pos n with h0 | hpos
  · rw [h0, Nat.cast_zero]
    exact isF32_zero
  · refine isF32_of_mul_zpow (n : ℤ) 0 (by exact_mod_cast hpos) (by simp) (by norm_num) ?_
    norm_num
    exact h

theorem isF32_natCast_add_half {n : ℕ} (h : n < 2 ^ 23) : IsF32 ((n : ℚ) + 1 / 2) := by
  have hn : ((n : ℕ) : ℚ) < ((2 ^ 23 : ℕ) : ℚ) := by exact_mod_cast h
  have hn1 : ((n : ℕ) : ℚ) + 1 ≤ ((2 ^ 23 : ℕ) : ℚ) := by exact_mod_cast h
  have hn0 : (0 : ℚ) ≤ (n : ℚ) := Nat.cast_nonneg n
  refine isF32_of_mul_zpow (2 * n + 1 : ℤ) (-1) (by positivity) ?_ (by norm_num) ?_
  · push_cast
    rw [zpow_neg_one]
    ring
  · norm_num at hn1 ⊢
    linarith

/-- The spacing at a value between 0 and `M`, for `M` at least 1, is at most
`M / 2 ^ 23`. -/
theorem f32Quantum_le {x M : ℚ} (h0 : 0 ≤ x) (hM : x ≤ M) (h1 : 1 ≤ M) :
    f32Quantum x ≤ M / 2 ^ 23 := by
  have hpow : (2 : ℚ) ^ (max (Int.log 2 |x|) (-126)) ≤ M := by
    rcases max_cases (Int.log 2 |x|) (-126) with ⟨h, _⟩ | ⟨h, _⟩
    · rw [h]
      rcases h0.eq_or_lt with hx | hx
      · rw [← hx, abs_zero, Int.log_zero_right, zpow_zero]
        exact h1
      · rw [abs_of_pos hx]
        exact (Int.zpow_log_le_self (by norm_num) hx).trans hM
    · rw [h]
      have : (2 : ℚ) ^ (-126 : ℤ) ≤ 1 := by
        rw [zpow_neg]
        apply inv_le_one_of_one_le₀
        exact one_le_zpow₀ (by norm_num) (by norm_num)
      exact this.trans h1
  unfold f32Quantum
  rw [zpow_sub₀ (by norm_num : (2 : ℚ) ≠ 0)]
  have : (2 : ℚ) ^ (23 : ℤ) = 2 ^ 23 := by norm_cast
  rw [this]
  exact div_le_div_of_nonneg_right hpow (by positivity)

theorem isF32_one : IsF32 1 := by
  have h := isF32_natCast (n := 1) (by norm_num)
  simpa using h

theorem fract_bounds (f : ℚ) : 0 ≤ fract f ∧ fract f ≤ 1 := by
  have h0 : 0 ≤ f - ⌊f⌋ := by linarith [Int.floor_le f]
  have h1 : f - ⌊f⌋ ≤ 1 := by linarith [Int.lt_floor_add_one f]
  exact ⟨f32_nonneg h0, f32_le h0 h1 isF32_one⟩

theorem wrapCoord_bounds (f : ℚ) : 0 ≤ wrapCoord f ∧ wrapCoord f ≤ 1 :=
  fract_bounds _

theorem clamp01_bounds (f : ℚ) : 0 ≤ clamp01 f ∧ clamp01 f ≤ 1 :=
  ⟨le_min (le_max_right f 0) (by norm_num), min_le_right _ _⟩

/-- The scaled coordinate for a coordinate in `[0, 1]` and a size from 1 to
`2 ^ 23`: the size minus one is a binary32 value, and the result lies between
0 and the size minus one half. -/
theorem scaleCoord_bounds {a : ℚ} {w : Nat} (h0 : 0 ≤ a) (h1 : a ≤ 1) (hw : 1 ≤ w)
    (hw23 : w ≤ 2 ^ 23) :
    scaleCoord a w = f32 (f32 (a * ((w - 1 : Nat) : ℚ)) + 1 / 2) ∧
    0 ≤ f32 (a * ((w - 1 : Nat) : ℚ)) ∧ f32 (a * ((w - 1 : Nat) : ℚ)) ≤ ((w - 1 : Nat) : ℚ) ∧
    0 ≤ scaleCoord a w ∧ scaleCoord a w ≤ ((w - 1 : Nat) : ℚ) + 1 / 2 := by
  have hn24 : w - 1 < 2 ^ 24 := by omega
  have hn23 : w - 1 < 2 ^ 23 := by omega
  have hfix : f32 ((w - 1 : Nat) : ℚ) = ((w - 1 : Nat) : ℚ) := f32_of_isF32 (isF32_natCast hn24)
  have hn0 : (0 : ℚ) ≤ ((w - 1 : Nat) : ℚ) := Nat.cast_nonneg _
  have hp0 : 0 ≤ a * ((w - 1 : Nat) : ℚ) := by positivity
  have hp1 : a * ((w - 1 : Nat) : ℚ) ≤ ((w - 1 : Nat) : ℚ) := by
    have := mul_le_mul_of_nonneg_right h1 hn0
    linarith
  have hP0 : 0 ≤ f32 (a * ((w - 1 : Nat) : ℚ)) := f32_nonneg hp0
  have hP1 : f32 (a * ((w - 1 : Nat) : ℚ)) ≤ ((w - 1 : Nat) : ℚ) :=
    f32_le hp0 hp1 (isF32_natCast hn24)
  have hs0 : 0 ≤ f32 (a * ((w - 1 : Nat) : ℚ)) + 1 / 2 := by positivity
  have hs1 : f32 (a * ((w - 1 : Nat) : ℚ)) + 1 / 2 ≤ ((w - 1 : Nat) : ℚ) + 1 / 2 := by
    linarith
  have heq : scaleCoord a w = f32 (f32 (a * ((w - 1 : Nat) : ℚ)) + 1 / 2) := by
    unfold scaleCoord
    rw [hfix]
  rw [heq]
  exact ⟨rfl, hP0, hP1, f32_nonneg hs0, f32_le hs0 hs1 (isF32_natCast_add_half hn23)⟩

/-- The conversion to an unsigned integer of a float between 0 and
`n + 1/2`: the floor of the float, which is at most `n`. -/
theorem castU32_of_bounds {s : ℚ} {n : Nat} (h0 : 0 ≤ s) (h1 : s ≤ (n : ℚ) + 1 / 2)
    (hn : n < 2 ^ 32) : ((castU32 s : Nat) : ℤ) = ⌊s⌋ ∧ castU32 s ≤ n := by
  have hfl0 : 0 ≤ ⌊s⌋ := Int.floor_nonneg.mpr h0
  have hfl1 : ⌊s⌋ < (n : ℤ) + 1 := by
    rw [Int.floor_lt]
    push_cast
    linarith
  unfold castU32
  rw [truncQ_of_nonneg h0]
  constructor <;> omega

theorem castU32_scaleCoord_lt {a : ℚ} {w : Nat} (h0 : 0 ≤ a) (h1 : a ≤ 1) (hw : 1 ≤ w)
    (hw23 : w ≤ 2 ^ 23) : castU32 (scaleCoord a w) < w := by
  obtain ⟨_, _, _, hs0, hs1⟩ := scaleCoord_bounds h0 h1 hw hw23
  have := (castU32_of_bounds hs0 hs1 (by omega)).2
  omega

theorem f32_add_half_tie : f32 (8388609 + 1 / 2) = 8388610 := by
  have hpos : (0 : ℚ) < 8388609 + 1 / 2 := by norm_num
  have hlog : Int.log 2 |(8388609 + 1 / 2 : ℚ)| = 23 := by
    rw [abs_of_pos hpos]
    apply le_antisymm
    · have h := (Int.lt_zpow_iff_log_lt (R := ℚ) (b := 2) (by norm_num) hpos (x := 24)).mp
        (by norm_num)
      omega
    · exact (Int.zpow_le_iff_le_log (R := ℚ) (b := 2) (by norm_num) hpos (x := 23)).mp
        (by norm_num)
  have hq : f32Quantum (8388609 + 1 / 2) = 1 := by
    unfold f32Quantum
    rw [hlog]
    norm_num
  have hfl : ⌊(8388609 + 1 / 2 : ℚ)⌋ = 8388609 := by
    rw [Int.floor_eq_iff]
    constructor <;> norm_num
  have hr : roundEven (8388609 + 1 / 2) = 8388610 := by
    unfold roundEven
    rw [hfl]
    norm_num
  unfold f32
  rw [hq, div_one, hr]
  norm_num

/-- Counterexample to C20: a texture 8388610 texels wide and 1 high whose
image has storage, sampled by `read_textureClamp` at `uv = (1, 0)`.  The
product is 8388609, and `8388609 + 0.5` rounds to the even neighbour 8388610;
the pixel passed to `texelFetch` has `x = 8388610 = width`, outside the
texture, and the sampler returns the colour of the out-of-bounds branch on
every heap. -/
theorem read_textureClamp_wide_out_of_bounds :
    exWideTexture.img.data = some 8 ∧ 1 ≤ exWideTexture.width ∧ 1 ≤ exWideTexture.height ∧
    (clampPixel exWideTexture { x := 1, y := 0 }).x = 8388610 ∧
    ¬ (clampPixel exWideTexture { x := 1, y := 0 }).x < exWideTexture.width ∧
    ∀ heap : Nat → Buffer, read_textureClamp heap exWideTexture { x := 1, y := 0 }
      = some { r := 0, g := 0, b := 0, a := 1 } := by
  have hc1 : clamp01 1 = 1 := by
    unfold clamp01
    rw [max_eq_left (by norm_num), min_eq_right (le_refl _)]
  have hfix : f32 ((8388609 : Nat) : ℚ) = ((8388609 : Nat) : ℚ) :=
    f32_of_isF32 (isF32_natCast (by norm_num))
  have hscale : scaleCoord 1 8388610 = 8388610 := by
    unfold scaleCoord
    rw [show (8388610 - 1 : Nat) = 8388609 by norm_num, hfix, one_mul, hfix]
    rw [show ((8388609 : Nat) : ℚ) + 1 / 2 = 8388609 + 1 / 2 by norm_num]
    exact f32_add_half_tie
  have hcast : castU32 8388610 = 8388610 := by
    unfold castU32
    rw [truncQ_of_nonneg (by norm_num)]
    have : ⌊(8388610 : ℚ)⌋ = 8388610 := by
      rw [Int.floor_eq_iff]
      constructor <;> norm_num
    rw [this]
    rfl
  have hx : (clampPixel exWideTexture { x := 1, y := 0 }).x = 8388610 := by
    show castU32 (scaleCoord (clamp01 1) 8388610) = 8388610
    rw [hc1, hscale, hcast]
  refine ⟨rfl, by decide, by decide, hx, ?_, ?_⟩
  · rw [hx]
    decide
  · intro heap
    unfold read_textureClamp texelFetch
    rw [if_neg (by decide), if_pos]
    left
    rw [hx]
    exact le_refl _

/-- C20, amended: for a texture whose image has storage and whose width and
height are at least 1 and at most `2 ^ 23`, the pixel that `read_texture`
passes to `texelFetch` and the one that `read_textureClamp` passes lie inside
the texture, for every `uv`; so both samplers return what the part of
`texelFetch` after the bounds test returns, not the colour of the
out-of-bounds branch. -/
theorem samplers_in_bounds (heap : Nat → Buffer) (texture : Texture) (uv : Vec2) (p : Nat)
    (hdata : texture.img.data = some p) (hw : 1 ≤ texture.width) (hh : 1 ≤ texture.height)
    (hw23 : texture.width ≤ 2 ^ 23) (hh23 : texture.height ≤ 2 ^ 23) :
    ((wrapPixel texture uv).x < texture.width ∧ (wrapPixel texture uv).y < texture.height) ∧
    ((clampPixel texture uv).x < texture.width ∧
      (clampPixel texture uv).y < texture.height) ∧
    read_texture heap texture uv = texelRead heap texture (wrapPixel texture uv) ∧
    read_textureClamp heap texture uv = texelRead heap texture (clampPixel texture uv) := by
  have hwrap : (wrapPixel texture uv).x < texture.width ∧
      (wrapPixel texture uv).y < texture.height :=
    ⟨castU32_scaleCoord_lt (wrapCoord_bounds uv.x).1 (wrapCoord_bounds uv.x).2 hw hw23,
      castU32_scaleCoord_lt (wrapCoord_bounds uv.y).1 (wrapCoord_bounds uv.y).2 hh hh23⟩
  have hclamp : (clampPixel texture uv).x < texture.width ∧
      (clampPixel texture uv).y < texture.height :=
    ⟨castU32_scaleCoord_lt (clamp01_bounds uv.x).1 (clamp01_bounds uv.x).2 hw hw23,
      castU32_scaleCoord_lt (clamp01_bounds uv.y).1 (clamp01_bounds uv.y).2 hh hh23⟩
  have hne : ¬ texture.img.data = none := by
    rw [hdata]
    exact Option.some_ne_none p
  refine ⟨hwrap, hclamp, ?_, ?_⟩
  · unfold read_texture texelFetch
    rw [if_neg hne, if_neg]
    intro h
    rcases h with h | h
    · exact absurd hwrap.1 (not_lt.mpr h)
    · exact absurd hwrap.2 (not_lt.mpr h)
  · unfold read_textureClamp texelFetch
    rw [if_neg hne, if_neg]
    intro h
    rcases h with h | h
    · exact absurd hclamp.1 (not_lt.mpr h)
    · exact absurd hclamp.2 (not_lt.mpr h)

/-- Witness of the amended C20: the 4 by 1 example texture sampled at
`(0.999, 5.5)` and at `(7, -3)`. -/
theorem samplers_in_bounds_witness :
    ((wrapPixel exTexture { x := 999 / 1000, y := 11 / 2 }).x < exTexture.width ∧
      (wrapPixel exTexture { x := 999 / 1000, y := 11 / 2 }).y < exTexture.height) ∧
    ((clampPixel exTexture { x := 7, y := -3 }).x < exTexture.width ∧
      (clampPixel exTexture { x := 7, y := -3 }).y < exTexture.height) :=
  ⟨(samplers_in_bounds exTexHeap exTexture { x := 999 / 1000, y := 11 / 2 } 5 rfl
      (by decide) (by decide) (by decide) (by decide)).1,
    (samplers_in_bounds exTexHeap exTexture { x := 7, y := -3 } 5 rfl
      (by decide) (by decide) (by decide) (by decide)).2.1⟩

theorem Vec4.set_spec (v : Vec4) {c : Nat} (hc : c < 4) (f : ℚ) :
    ∃ v1, v.set c f = some v1 ∧ v1.get c = f ∧ ∀ k, k ≠ c → v1.get k = v.get k := by
  have hcases : c = 0 ∨ c = 1 ∨ c = 2 ∨ c = 3 := by omega
  rcases hcases with rfl | rfl | rfl | rfl
  · refine ⟨{ v with r := f }, rfl, rfl, ?_⟩
    intro k hk
    rcases k with _ | _ | _ | _ | k <;> first | rfl | exact absurd rfl hk
  · refine ⟨{ v with g := f }, rfl, rfl, ?_⟩
    intro k hk
    rcases k with _ | _ | _ | _ | k <;> first | rfl | exact absurd rfl hk
  · refine ⟨{ v with b := f }, rfl, rfl, ?_⟩
    intro k hk
    rcases k with _ | _ | _ | _ | k <;> first | rfl | exact absurd rfl hk
  · refine ⟨{ v with a := f }, rfl, rfl, ?_⟩
    intro k hk
    rcases k with _ | _ | _ | _ | k <;> first | rfl | exact absurd rfl hk

theorem Vec4.ext_get {v w : Vec4} (h : ∀ c, c < 4 → v.get c = w.get c) : v = w := by
  have h0 := h 0 (by omega)
  have h1 := h 1 (by omega)
  have h2 := h 2 (by omega)
  have h3 := h 3 (by omega)
  cases v
  cases w
  simp only [Vec4.get] at h0 h1 h2 h3
  simp [h0, h1, h2, h3]

/-- A loop over the channels whose body assigns `val c` to `color[c]`, for at
most four channels. -/
theorem forLoop_channels {body : Nat → Vec4 → Option Vec4} {val : Nat → ℚ} :
    ∀ (n : Nat), n ≤ 4 → (∀ c, c < n → ∀ col, body c col = col.set c (val c)) →
      ∀ col0 : Vec4, ∃ col, forLoop n body col0 = some col ∧
        (∀ c, c < n → col.get c = val c) ∧ (∀ c, n ≤ c → col.get c = col0.get c) := by
  intro n
  induction n with
  | zero =>
    intro _ _ col0
    exact ⟨col0, rfl, fun c hc => absurd hc (Nat.not_lt_zero c), fun _ _ => rfl⟩
  | succ n ih =>
    intro hn hbody col0
    obtain ⟨col1, hrun, hset, hkeep⟩ := ih (by omega) (fun c hc => hbody c (by omega)) col0
    obtain ⟨col2, hs, hget, hother⟩ := Vec4.set_spec col1 (show n < 4 by omega) (val n)
    refine ⟨col2, ?_, ?_, ?_⟩
    · simp only [forLoop, hrun, Option.some_bind, hbody n (by omega), hs]
    · intro c hc
      by_cases hcn : c = n
      · rw [hcn]
        exact hget
      · rw [hother c hcn]
        exact hset c (by omega)
    · intro c hc
      rw [hother c (by omega)]
      exact hkeep c (by omega)

/-- The part of `texelFetch` after the bounds test, on a UINT8 image with at
most four channels whose channel slots hold the bytes `b c`. -/
theorem texelRead_uint8 (heap : Nat → Buffer) (texture : Texture) (pix : UVec2) (p : Nat)
    (hdata : texture.img.data = some p) (hfmt : texture.img.format = Format.UINT8)
    (hn : texture.img.channels ≤ 4) (b : Nat → Nat)
    (hread : ∀ c, c < texture.img.channels →
      readU8 (heap p) (pix.y * texture.img.pitch + pix.x * texture.img.bytesPerPixel
        + texture.img.channelTypes c) = some (b c)) :
    ∃ color, texelRead heap texture pix = some color ∧
      (∀ c, c < texture.img.channels → color.get c = (b c : ℚ) / 255) ∧
      (∀ c, texture.img.channels ≤ c →
        color.get c = Vec4.get { r := 0, g := 0, b := 0, a := 1 } c) := by
  obtain ⟨col, hrun, hset, hkeep⟩ :=
    @forLoop_channels
      (fun c col => do
        let x ← loadU8 heap (getPixel texture.img pix.x pix.y) (texture.img.channelTypes c)
        col.set c ((x : ℚ) / 255))
      (fun c => (b c : ℚ) / 255) texture.img.channels hn
      (by
        intro c hc col
        have hl : loadU8 heap (getPixel texture.img pix.x pix.y) (texture.img.channelTypes c)
            = some (b c) := by
          simp only [loadU8, getPixel, hdata]
          exact hread c hc
        simp only [hl, Option.bind_eq_bind, Option.some_bind])
      { r := 0, g := 0, b := 0, a := 1 }
  refine ⟨col, ?_, hset, hkeep⟩
  simp only [Option.bind_eq_bind] at hrun
  unfold texelRead
  simp [hfmt, hrun]

/-- The part of `texelFetch` after the bounds test, on a FLOAT32 image with at
most four channels whose channel slots hold the floats `f c`. -/
theorem texelRead_float32 (heap : Nat → Buffer) (texture : Texture) (pix : UVec2) (p : Nat)
    (hdata : texture.img.data = some p) (hfmt : texture.img.format = Format.FLOAT32)
    (hn : texture.img.channels ≤ 4) (f : Nat → ℚ)
    (hread : ∀ c, c < texture.img.channels →
      readF32 (heap p) (pix.y * texture.img.pitch + pix.x * texture.img.bytesPerPixel
        + 4 * texture.img.channelTypes c) = some (f c)) :
    ∃ color, texelRead heap texture pix = some color ∧
      (∀ c, c < texture.img.channels → color.get c = f c) ∧
      (∀ c, texture.img.channels ≤ c →
        color.get c = Vec4.get { r := 0, g := 0, b := 0, a := 1 } c) := by
  obtain ⟨col, hrun, hset, hkeep⟩ :=
    @forLoop_channels
      (fun c col => do
        let x ← loadF32 heap (getPixel texture.img pix.x pix.y) (texture.img.channelTypes c)
        col.set c x)
      f texture.img.channels hn
      (by
        intro c hc col
        have hl : loadF32 heap (getPixel texture.img pix.x pix.y) (texture.img.channelTypes c)
            = some (f c) := by
          simp only [loadF32, getPixel, hdata]
          exact hread c hc
        simp only [hl, Option.bind_eq_bind, Option.some_bind])
      { r := 0, g := 0, b := 0, a := 1 }
  refine ⟨col, ?_, hset, hkeep⟩
  simp only [Option.bind_eq_bind] at hrun
  unfold texelRead
  simp [hfmt, hrun]

theorem texelFetch_inside (heap : Nat → Buffer) (texture : Texture) (pix : UVec2)
    (hx : pix.x < texture.width) (hy : pix.y < texture.height) :
    texelFetch heap texture pix = texelRead heap texture pix := by
  unfold texelFetch
  rw [if_neg]
  intro h
  rcases h with h | h
  · exact absurd hx (not_lt.mpr h)
  · exact absurd hy (not_lt.mpr h)

/-- C13: for a texture whose image has storage and at most four channels and
a pixel inside the texture, `texelFetch` returns a colour whose component
`c`, for `c` below the channel count, is the value stored at the channel slot
`channelTypes[c]` of the pixel: the stored byte divided by 255 for a UINT8
image, which lies in `[0, 1]`, and the stored float itself for a FLOAT32
image; the components from the channel count on are those of
`(0, 0, 0, 1)`. -/
theorem texelFetch_reads_channels (heap : Nat → Buffer) (texture : Texture) (pix : UVec2)
    (p : Nat) (hdata : texture.img.data = some p) (hn : texture.img.channels ≤ 4)
    (hx : pix.x < texture.width) (hy : pix.y < texture.height) :
    (texture.img.format = Format.UINT8 → ∀ b : Nat → Nat,
      (∀ c, c < texture.img.channels →
        readU8 (heap p) (pix.y * texture.img.pitch + pix.x * texture.img.bytesPerPixel
          + texture.img.channelTypes c) = some (b c)) →
      (∀ c, c < texture.img.channels → b c ≤ 255) →
      ∃ color, texelFetch heap texture pix = some color ∧
        (∀ c, c < texture.img.channels →
          color.get c = (b c : ℚ) / 255 ∧ 0 ≤ color.get c ∧ color.get c ≤ 1) ∧
        (∀ c, texture.img.channels ≤ c →
          color.get c = Vec4.get { r := 0, g := 0, b := 0, a := 1 } c)) ∧
    (texture.img.format = Format.FLOAT32 → ∀ f : Nat → ℚ,
      (∀ c, c < texture.img.channels →
        readF32 (heap p) (pix.y * texture.img.pitch + pix.x * texture.img.bytesPerPixel
          + 4 * texture.img.channelTypes c) = some (f c)) →
      ∃ color, texelFetch heap texture pix = some color ∧
        (∀ c, c < texture.img.channels → color.get c = f c) ∧
        (∀ c, texture.img.channels ≤ c →
          color.get c = Vec4.get { r := 0, g := 0, b := 0, a := 1 } c)) := by
  constructor
  · intro hfmt b hread hbyte
    obtain ⟨color, hrun, hset, hkeep⟩ := texelRead_uint8 heap texture pix p hdata hfmt hn b hread
    refine ⟨color, by rw [texelFetch_inside heap texture pix hx hy]; exact hrun, ?_, hkeep⟩
    intro c hc
    have hb : ((b c : Nat) : ℚ) ≤ 255 := by exact_mod_cast hbyte c hc
    have hb0 : (0 : ℚ) ≤ ((b c : Nat) : ℚ) := Nat.cast_nonneg _
    rw [hset c hc]
    refine ⟨rfl, by positivity, ?_⟩
    rw [div_le_one (by norm_num)]
    exact hb
  · intro hfmt f hread
    obtain ⟨color, hrun, hset, hkeep⟩ :=
      texelRead_float32 heap texture pix p hdata hfmt hn f hread
    exact ⟨color, by rw [texelFetch_inside heap texture pix hx hy]; exact hrun, hset, hkeep⟩

/-- Witness of C13: texel `(1, 0)` of the UINT8 example texture, whose bytes
are 20, 21, 22, 23, and the texel of the two-channel FLOAT32 example texture,
whose slots hold `1/4` and `3/4` and are read in the order slot 1, slot 0. -/
theorem texelFetch_reads_channels_witness :
    (∃ color, texelFetch exTexHeap exTexture { x := 1, y := 0 } = some color ∧
      (∀ c, c < 4 → color.get c = ((20 + c : Nat) : ℚ) / 255 ∧
        0 ≤ color.get c ∧ color.get c ≤ 1)) ∧
    (∃ color, texelFetch exFloatHeap exTexFloat { x := 0, y := 0 } = some color ∧
      color.get 0 = 3 / 4 ∧ color.get 1 = 1 / 4 ∧ color.get 2 = 0 ∧ color.get 3 = 1) := by
  constructor
  · obtain ⟨color, hrun, hset, _⟩ :=
      (texelFetch_reads_channels exTexHeap exTexture { x := 1, y := 0 } 5 rfl
        (by decide) (by decide) (by decide)).1 rfl (fun c => 20 + c)
        (by
          intro c hc
          have hc4 : c < 4 := hc
          interval_cases c <;> rfl)
        (by
          intro c hc
          have hc4 : c < 4 := hc
          show 20 + c ≤ 255
          omega)
    exact ⟨color, hrun, hset⟩
  · obtain ⟨color, hrun, hset, hkeep⟩ :=
      (texelFetch_reads_channels exFloatHeap exTexFloat { x := 0, y := 0 } 6 rfl
        (by decide) (by decide) (by decide)).2 rfl (fun c => if c = 0 then 3 / 4 else 1 / 4)
        (by
          intro c hc
          have hc2 : c < 2 := hc
          interval_cases c
          · show readF32 (exFloatHeap 6) 4 = some (3 / 4)
            exact readF32_of_bytes (fun k hk => by interval_cases k <;> rfl)
          · show readF32 (exFloatHeap 6) 0 = some (1 / 4)
            exact readF32_of_bytes (fun k hk => by interval_cases k <;> rfl))
    refine ⟨color, hrun, ?_, ?_, ?_, ?_⟩
    · simpa using hset 0 (by decide)
    · simpa using hset 1 (by decide)
    · exact hkeep 2 (by decide)
    · exact hkeep 3 (by decide)

/-- C19: after `clear` with `clearColor` and the colour `k` on a well-sized
FLOAT32 colour image with four channels in the identity order, `texelFetch`
on the texture that wraps the colour image with the width and height of the
framebuffer returns exactly `k` at every pixel `(x, y)` inside it.  (If the
depth is cleared too, the depth image is well sized and has storage of its
own.) -/
theorem clear_texelFetch_roundtrip (mem : GPUMemory) (cmd : ClearCommand) (fbo : Framebuffer)
    (p : Nat)
    (hfbo : mem.framebuffers[mem.activatedFramebuffer]? = some fbo)
    (hdata : fbo.color.data = some p)
    (hfmt : fbo.color.format = Format.FLOAT32)
    (hch : fbo.color.channels = 4)
    (horder : ∀ c, c < 4 → fbo.color.channelTypes c = c)
    (hbpp : 16 ≤ fbo.color.bytesPerPixel)
    (hpitch : fbo.width * fbo.color.bytesPerPixel ≤ fbo.color.pitch)
    (hsize : fbo.height * fbo.color.pitch ≤ (mem.heap p).length)
    (hcc : cmd.clearColor = true)
    (hdepth : cmd.clearDepth = true → DepthSized mem.heap fbo ∧ fbo.depth.data ≠ some p) :
    ∃ mem1, clear mem cmd = some mem1 ∧
      ∀ x y, x < fbo.width → y < fbo.height →
        texelFetch mem1.heap { img := fbo.color, width := fbo.width, height := fbo.height }
          { x := x, y := y } = some cmd.color := by
  have hsz : colorStoreSize fbo.color = 16 := by simp [colorStoreSize, hfmt]
  have hpat : colorBytes fbo.color cmd.color =
      f32Bytes cmd.color.r ++ f32Bytes cmd.color.g ++ f32Bytes cmd.color.b ++
        f32Bytes cmd.color.a := by simp [colorBytes, hfmt]
  obtain ⟨mem1, hrun, _, hbytes⟩ :=
    color_bytes_after_clear mem cmd fbo p hfbo hdata (by rw [hsz]; exact hbpp) hpitch hsize
      hcc hdepth
  rw [hsz, hpat] at hbytes
  refine ⟨mem1, hrun, ?_⟩
  intro x y hx hy
  obtain ⟨h0, h1, h2, h3⟩ := readF32_of_color_bytes (fun k hk => hbytes x y k hx hy hk)
  obtain ⟨color, hread, hset, _⟩ :=
    texelRead_float32 mem1.heap { img := fbo.color, width := fbo.width, height := fbo.height }
      { x := x, y := y } p hdata hfmt (by simp only [hch]; exact le_refl 4) cmd.color.get
      (by
        intro c hc
        have hc4 : c < 4 := by simpa only [hch] using hc
        simp only [horder c hc4]
        interval_cases c
        · exact h0
        · exact h1
        · exact h2
        · exact h3)
  rw [texelFetch_inside _ _ _ hx hy, hread]
  congr 1
  apply Vec4.ext_get
  intro c hc
  exact hset c (by simp only [hch]; exact hc)

/-- Witness of C19: the 2 by 2 FLOAT32 framebuffer cleared to
`(0.2, 0.4, 0.6, 1.0)` and fetched as a texture. -/
theorem clear_texelFetch_roundtrip_witness :
    ∃ mem1, clear (exMem 0) (exClear (1 / 5) (2 / 5) (3 / 5) 1 0 true true) = some mem1 ∧
      ∀ x y, x < exFbFloat.width → y < exFbFloat.height →
        texelFetch mem1.heap
          { img := exFbFloat.color, width := exFbFloat.width, height := exFbFloat.height }
          { x := x, y := y } = some (exClear (1 / 5) (2 / 5) (3 / 5) 1 0 true true).color :=
  clear_texelFetch_roundtrip (exMem 0) (exClear (1 / 5) (2 / 5) (3 / 5) 1 0 true true)
    exFbFloat 1 rfl rfl rfl rfl (fun _ _ => rfl) (by decide) (by decide) (by decide) rfl
    (fun _ => ⟨fun q hq => by
      have hq2 : q = 2 := by simpa [exFbFloat] using hq.symm
      subst hq2
      exact ⟨by decide, by decide, by decide⟩, by decide⟩)

/-- The spacing of the binary32 values from 1 up to 2 is `2 ^ (-23)`. -/
theorem f32Quantum_one_two {x : ℚ} (h1 : 1 ≤ x) (h2 : x < 2) : f32Quantum x = 1 / 2 ^ 23 := by
  have hpos : (0 : ℚ) < x := by linarith
  have hlog : Int.log 2 |x| = 0 := by
    rw [abs_of_pos hpos]
    apply le_antisymm
    · have h := (Int.lt_zpow_iff_log_lt (R := ℚ) (b := 2) (by norm_num) hpos (x := 1)).mp
        (by simpa using h2)
      omega
    · exact (Int.zpow_le_iff_le_log (R := ℚ) (b := 2) (by norm_num) hpos (x := 0)).mp
        (by simpa using h1)
  unfold f32Quantum
  rw [hlog]
  norm_num

theorem f32_two : f32 2 = 2 := by
  have h := f32_of_isF32 (isF32_natCast (n := 2) (by norm_num))
  simpa using h

theorem fract_two : fract 2 = 0 := by
  have hfl : ⌊(2 : ℚ)⌋ = 2 := by
    rw [Int.floor_eq_iff]
    constructor <;> norm_num
  have h : (2 : ℚ) - ((2 : ℤ) : ℚ) = 0 := by norm_num
  unfold fract
  rw [hfl, h, f32_zero]

/-- The wrapped coordinate of line 164 lies in `[0, 1)`.  It differs from the
exact fractional part of the coordinate by at most `2 ^ (-23)`, or it is 0
where the exact fractional part is at least `1 - 2 ^ (-23)`: there the sum
`fract uv + 1` rounds to 2. -/
theorem wrapCoord_near (f : ℚ) :
    0 ≤ wrapCoord f ∧ wrapCoord f < 1 ∧
    (|wrapCoord f - Int.fract f| ≤ 1 / 2 ^ 23 ∨
      (wrapCoord f = 0 ∧ 1 - 1 / 2 ^ 23 ≤ Int.fract f)) := by
  have hfr0 : 0 ≤ Int.fract f := Int.fract_nonneg f
  have hfr1 : Int.fract f ≤ 1 := (Int.fract_lt_one f).le
  have hae : fract f = f32 (Int.fract f) := rfl
  have ha0 : 0 ≤ fract f := (fract_bounds f).1
  have ha1 : fract f ≤ 1 := (fract_bounds f).2
  have hfa : |fract f - Int.fract f| ≤ 1 / 2 ^ 24 := by
    rw [hae]
    have h := abs_f32_sub (Int.fract f)
    have hq := f32Quantum_le hfr0 hfr1 (le_refl 1)
    have hq2 : f32Quantum (Int.fract f) / 2 ≤ 1 / 2 ^ 24 := by
      norm_num at hq ⊢
      linarith
    exact h.trans hq2
  rw [abs_le] at hfa
  obtain ⟨hfa1, hfa2⟩ := hfa
  norm_num at hfa1 hfa2
  rcases ha1.eq_or_lt with h1 | h1
  · have hw : wrapCoord f = 0 := by
      unfold wrapCoord
      rw [h1, show (1 : ℚ) + 1 = 2 by norm_num, f32_two, fract_two]
    rw [hw]
    refine ⟨le_refl _, by norm_num, Or.inr ⟨rfl, ?_⟩⟩
    norm_num
    linarith
  · have hx1 : 1 ≤ fract f + 1 := by linarith
    have hx2 : fract f + 1 < 2 := by linarith
    have hq : f32Quantum (fract f + 1) = 1 / 2 ^ 23 := f32Quantum_one_two hx1 hx2
    have hb : f32 (fract f + 1)
        = (roundEven ((fract f + 1) / (1 / 2 ^ 23)) : ℚ) * (1 / 2 ^ 23) := by
      unfold f32
      rw [hq]
    have hk1 : (2 : ℤ) ^ 23 ≤ roundEven ((fract f + 1) / (1 / 2 ^ 23)) := by
      apply le_roundEven
      rw [le_div_iff₀ (by norm_num)]
      norm_num
      linarith
    have hk2 : roundEven ((fract f + 1) / (1 / 2 ^ 23)) ≤ (2 : ℤ) ^ 24 := by
      apply roundEven_le
      rw [div_le_iff₀ (by norm_num)]
      norm_num
      linarith
    have herr : |f32 (fract f + 1) - (fract f + 1)| ≤ 1 / 2 ^ 24 := by
      have h := abs_f32_sub (fract f + 1)
      rw [hq] at h
      have e : (1 : ℚ) / 2 ^ 23 / 2 = 1 / 2 ^ 24 := by norm_num
      rw [e] at h
      exact h
    rw [abs_le] at herr
    obtain ⟨herr1, herr2⟩ := herr
    norm_num at herr1 herr2
    rcases hk2.eq_or_lt with hk24 | hk24
    · have hb2 : f32 (fract f + 1) = 2 := by
        rw [hb, hk24]
        norm_num
      have hw : wrapCoord f = 0 := by
        unfold wrapCoord
        rw [hb2, fract_two]
      rw [hw]
      refine ⟨le_refl _, by norm_num, Or.inr ⟨rfl, ?_⟩⟩
      rw [hb2] at herr1 herr2
      norm_num
      linarith
    · have hkq1 : ((2 : ℤ) ^ 23 : ℚ) ≤ (roundEven ((fract f + 1) / (1 / 2 ^ 23)) : ℚ) := by
        exact_mod_cast hk1
      have hkq2 : (roundEven ((fract f + 1) / (1 / 2 ^ 23)) : ℚ) + 1 ≤ ((2 : ℤ) ^ 24 : ℚ) := by
        exact_mod_cast hk24
      norm_num at hkq1 hkq2
      have hb1 : 1 ≤ f32 (fract f + 1) := by
        rw [hb]
        norm_num
        linarith
      have hb2 : f32 (fract f + 1) < 2 := by
        rw [hb]
        norm_num
        linarith
      have hfl : ⌊f32 (fract f + 1)⌋ = 1 := by
        rw [Int.floor_eq_iff]
        constructor
        · exact_mod_cast hb1
        · norm_num
          exact hb2
      have hisf : IsF32 (f32 (fract f + 1) - 1) := by
        rcases hb1.eq_or_lt with h | h
        · rw [← h]
          norm_num
          exact isF32_zero
        · refine isF32_of_mul_zpow (roundEven ((fract f + 1) / (1 / 2 ^ 23)) - 2 ^ 23) (-23)
            (by linarith) ?_ (by norm_num) ?_
          · rw [hb]
            push_cast
            rw [zpow_neg]
            norm_num
            ring
          · norm_num
            linarith
      have hw : wrapCoord f = f32 (fract f + 1) - 1 := by
        unfold wrapCoord
        have : fract (f32 (fract f + 1)) = f32 (f32 (fract f + 1) - ⌊f32 (fract f + 1)⌋) := rfl
        rw [this, hfl]
        have e : f32 (fract f + 1) - ((1 : ℤ) : ℚ) = f32 (fract f + 1) - 1 := by norm_num
        rw [e, f32_of_isF32 hisf]
      rw [hw]
      refine ⟨by linarith, by linarith, Or.inl ?_⟩
      rw [abs_le]
      norm_num
      constructor <;> linarith

/-- The texel index that the scaling of lines 165 to 166 yields for a
coordinate `a` in `[0, 1]` and a size `w` from 1 to `2 ^ 23` differs from
`a * (w - 1)` by at most `1/2 + w / 2 ^ 23`. -/
theorem scaleCoord_floor_error {a : ℚ} {w : Nat} (h0 : 0 ≤ a) (h1 : a ≤ 1) (hw : 1 ≤ w)
    (hw23 : w ≤ 2 ^ 23) :
    |a * ((w - 1 : Nat) : ℚ) - (⌊f32 (f32 (a * ((w - 1 : Nat) : ℚ)) + 1 / 2)⌋ : ℚ)|
      ≤ 1 / 2 + (w : ℚ) / 2 ^ 23 := by
  obtain ⟨_, hP0, hP1, _, _⟩ := scaleCoord_bounds h0 h1 hw hw23
  have hcast : ((w - 1 : Nat) : ℚ) = (w : ℚ) - 1 := by
    rw [Nat.cast_sub hw, Nat.cast_one]
  have hw1 : (1 : ℚ) ≤ (w : ℚ) := by exact_mod_cast hw
  have hp0 : 0 ≤ a * ((w - 1 : Nat) : ℚ) := mul_nonneg h0 (Nat.cast_nonneg _)
  have hp1 : a * ((w - 1 : Nat) : ℚ) ≤ (w : ℚ) := by
    have := mul_le_mul_of_nonneg_right h1 (Nat.cast_nonneg (w - 1) : (0 : ℚ) ≤ ((w - 1 : Nat) : ℚ))
    rw [hcast] at this ⊢
    linarith
  have e1 := abs_f32_sub (a * ((w - 1 : Nat) : ℚ))
  have q1 := f32Quantum_le hp0 hp1 hw1
  have hs0 : 0 ≤ f32 (a * ((w - 1 : Nat) : ℚ)) + 1 / 2 := by positivity
  have hs1 : f32 (a * ((w - 1 : Nat) : ℚ)) + 1 / 2 ≤ (w : ℚ) := by
    linarith
  have e2 := abs_f32_sub (f32 (a * ((w - 1 : Nat) : ℚ)) + 1 / 2)
  have q2 := f32Quantum_le hs0 hs1 hw1
  have hfl := Int.floor_le (f32 (f32 (a * ((w - 1 : Nat) : ℚ)) + 1 / 2))
  have hfl2 := Int.lt_floor_add_one (f32 (f32 (a * ((w - 1 : Nat) : ℚ)) + 1 / 2))
  rw [abs_le] at e1 e2 ⊢
  obtain ⟨e1a, e1b⟩ := e1
  obtain ⟨e2a, e2b⟩ := e2
  have hh : (w : ℚ) / 2 ^ 23 = (w : ℚ) / 2 ^ 23 / 2 + (w : ℚ) / 2 ^ 23 / 2 := by ring
  constructor <;> linarith

/-- Counterexample to C16: the 4 by 1 example texture at `uv = (3/16, 0)`.
Every operation of the sampler is exact at this input: the wrapped coordinate
is `(3/16, 0)`, the exact fractional part.  The texel whose centre is nearest
to it is `(0, 0)` (centre 0.125, against 0.375 for texel 1), and
`read_texture` returns the colour of texel `(1, 0)`
(`3/16 * 3 + 1/2 = 17/16`), which differs from the colour of texel
`(0, 0)`. -/
theorem read_texture_not_nearest_centre :
    exTexture.img.data = some 5 ∧ exTexture.width = 4 ∧ exTexture.height = 1 ∧
    wrapCoord (3 / 16) = Int.fract (3 / 16 : ℚ) ∧ wrapCoord 0 = Int.fract (0 : ℚ) ∧
    IsNearestTexel exTexture.width (Int.fract (3 / 16 : ℚ)) 0 ∧
    IsNearestTexel exTexture.height (Int.fract (0 : ℚ)) 0 ∧
    read_texture exTexHeap exTexture { x := 3 / 16, y := 0 }
      = texelFetch exTexHeap exTexture { x := 1, y := 0 } ∧
    ∀ i j, IsNearestTexel exTexture.width (Int.fract (3 / 16 : ℚ)) i →
      IsNearestTexel exTexture.height (Int.fract (0 : ℚ)) j →
      read_texture exTexHeap exTexture { x := 3 / 16, y := 0 }
        ≠ texelFetch exTexHeap exTexture { x := i, y := j } := by
  have hf : Int.fract (3 / 16 : ℚ) = 3 / 16 := by
    rw [Int.fract_eq_self]
    constructor <;> norm_num
  have hf0 : Int.fract (0 : ℚ) = 0 := Int.fract_zero
  have hwc : wrapCoord (3 / 16) = 3 / 16 := by decide!
  have hwc0 : wrapCoord 0 = 0 := by decide!
  have hread : read_texture exTexHeap exTexture { x := 3 / 16, y := 0 }
      = texelFetch exTexHeap exTexture { x := 1, y := 0 } := by decide!
  have hne : texelFetch exTexHeap exTexture { x := 1, y := 0 }
      ≠ texelFetch exTexHeap exTexture { x := 0, y := 0 } := by decide!
  have hw : exTexture.width = 4 := rfl
  have hh : exTexture.height = 1 := rfl
  rw [hf, hf0, hw, hh]
  refine ⟨rfl, rfl, rfl, hwc, hwc0, ⟨by decide, ?_⟩, ⟨by decide, ?_⟩, hread, ?_⟩
  · intro k hk
    rw [← sq_le_sq]
    interval_cases k <;> norm_num
  · intro k hk
    interval_cases k
    exact le_refl _
  · intro i j hi hj
    obtain ⟨hi4, hin⟩ := hi
    obtain ⟨hj1, _⟩ := hj
    have hj0 : j = 0 := by omega
    have h0 := hin 0 (by decide)
    rw [← sq_le_sq] at h0
    have hi0 : i = 0 := by
      interval_cases i
      · rfl
      · norm_num at h0
      · norm_num at h0
      · norm_num at h0
    rw [hi0, hj0, hread]
    exact hne

/-- C16, amended: for a texture whose image has storage and whose width `W`
and height `H` are at least 1 and at most `2 ^ 23`, and every `uv`.  Let
`(wu, wv)` be the wrapped coordinate that line 164 computes in binary32,
`fract (fract uv + 1)`.  Each of `wu`, `wv` lies in `[0, 1)` and differs from
the exact fractional part of its coordinate by at most `2 ^ (-23)`, or is 0
where the exact fractional part is at least `1 - 2 ^ (-23)`.  `read_texture`
returns `texelFetch` at the texel `(i, j)` with
`i = floor (fl (fl (wu * (W - 1)) + 1/2))` and
`j = floor (fl (fl (wv * (H - 1)) + 1/2))`, where `fl` rounds to binary32;
the texel is inside the texture, `|wu * (W - 1) - i| ≤ 1/2 + W / 2 ^ 23` and
`|wv * (H - 1) - j| ≤ 1/2 + H / 2 ^ 23`: the wrapped coordinate is scaled by
`W - 1` and `H - 1` and rounded. -/
theorem read_texture_rounds_scaled (heap : Nat → Buffer) (texture : Texture) (uv : Vec2)
    (p : Nat) (hdata : texture.img.data = some p)
    (hw : 1 ≤ texture.width) (hh : 1 ≤ texture.height)
    (hw23 : texture.width ≤ 2 ^ 23) (hh23 : texture.height ≤ 2 ^ 23) :
    (0 ≤ wrapCoord uv.x ∧ wrapCoord uv.x < 1 ∧
      (|wrapCoord uv.x - Int.fract uv.x| ≤ 1 / 2 ^ 23 ∨
        (wrapCoord uv.x = 0 ∧ 1 - 1 / 2 ^ 23 ≤ Int.fract uv.x))) ∧
    (0 ≤ wrapCoord uv.y ∧ wrapCoord uv.y < 1 ∧
      (|wrapCoord uv.y - Int.fract uv.y| ≤ 1 / 2 ^ 23 ∨
        (wrapCoord uv.y = 0 ∧ 1 - 1 / 2 ^ 23 ≤ Int.fract uv.y))) ∧
    ∃ i j : Nat,
      (i : ℤ) = ⌊f32 (f32 (wrapCoord uv.x * ((texture.width - 1 : Nat) : ℚ)) + 1 / 2)⌋ ∧
      (j : ℤ) = ⌊f32 (f32 (wrapCoord uv.y * ((texture.height - 1 : Nat) : ℚ)) + 1 / 2)⌋ ∧
      i < texture.width ∧ j < texture.height ∧
      |wrapCoord uv.x * ((texture.width - 1 : Nat) : ℚ) - (i : ℚ)|
        ≤ 1 / 2 + (texture.width : ℚ) / 2 ^ 23 ∧
      |wrapCoord uv.y * ((texture.height - 1 : Nat) : ℚ) - (j : ℚ)|
        ≤ 1 / 2 + (texture.height : ℚ) / 2 ^ 23 ∧
      read_texture heap texture uv = texelFetch heap texture { x := i, y := j } := by
  have hx := wrapCoord_near uv.x
  have hy := wrapCoord_near uv.y
  obtain ⟨hxe, _, _, hxs0, hxs1⟩ := scaleCoord_bounds hx.1 hx.2.1.le hw hw23
  obtain ⟨hye, _, _, hys0, hys1⟩ := scaleCoord_bounds hy.1 hy.2.1.le hh hh23
  obtain ⟨hxi, hxle⟩ := castU32_of_bounds hxs0 hxs1 (by omega)
  obtain ⟨hyi, hyle⟩ := castU32_of_bounds hys0 hys1 (by omega)
  have hxq : ((castU32 (scaleCoord (wrapCoord uv.x) texture.width) : Nat) : ℚ)
      = ((⌊scaleCoord (wrapCoord uv.x) texture.width⌋ : ℤ) : ℚ) := by
    rw [← hxi]
    norm_cast
  have hyq : ((castU32 (scaleCoord (wrapCoord uv.y) texture.height) : Nat) : ℚ)
      = ((⌊scaleCoord (wrapCoord uv.y) texture.height⌋ : ℤ) : ℚ) := by
    rw [← hyi]
    norm_cast
  have hne : ¬ texture.img.data = none := by
    rw [hdata]
    exact Option.some_ne_none p
  refine ⟨hx, hy, castU32 (scaleCoord (wrapCoord uv.x) texture.width),
    castU32 (scaleCoord (wrapCoord uv.y) texture.height), ?_, ?_, by omega, by omega, ?_, ?_, ?_⟩
  · rw [hxi, hxe]
  · rw [hyi, hye]
  · rw [hxq, hxe]
    exact scaleCoord_floor_error hx.1 hx.2.1.le hw hw23
  · rw [hyq, hye]
    exact scaleCoord_floor_error hy.1 hy.2.1.le hh hh23
  · unfold read_texture
    rw [if_neg hne]
    rfl

/-- Witness of the amended C16: the 4 by 1 example texture at
`uv = (1/5, 7/2)`. -/
theorem read_texture_rounds_scaled_witness :
    ∃ i j : Nat,
      (i : ℤ) = ⌊f32 (f32 (wrapCoord (1 / 5) * ((exTexture.width - 1 : Nat) : ℚ)) + 1 / 2)⌋ ∧
      (j : ℤ) = ⌊f32 (f32 (wrapCoord (7 / 2) * ((exTexture.height - 1 : Nat) : ℚ)) + 1 / 2)⌋ ∧
      i < exTexture.width ∧ j < exTexture.height ∧
      |wrapCoord (1 / 5) * ((exTexture.width - 1 : Nat) : ℚ) - (i : ℚ)|
        ≤ 1 / 2 + (exTexture.width : ℚ) / 2 ^ 23 ∧
      |wrapCoord (7 / 2) * ((exTexture.height - 1 : Nat) : ℚ) - (j : ℚ)|
        ≤ 1 / 2 + (exTexture.height : ℚ) / 2 ^ 23 ∧
      read_texture exTexHeap exTexture { x := 1 / 5, y := 7 / 2 }
        = texelFetch exTexHeap exTexture { x := i, y := j } :=
  (read_texture_rounds_scaled exTexHeap exTexture { x := 1 / 5, y := 7 / 2 } 5 rfl
    (by decide) (by decide) (by decide) (by decide)).2.2

/-- C18, the code at the failing input: a 1 by 1 framebuffer whose colour
image has one UINT8 channel, one byte per pixel, a pitch of 1 and a storage of
`height * pitch = 1` byte.  `clear` with `clearColor` stores four bytes into
the pixel; the store at offset 1 is outside the storage, so the stores of the
pixel fault and so does `clear`, whatever the colour. -/
theorem clear_one_channel_overruns (r g b a d : ℚ) (cd : Bool) :
    exFbGray.color.bytesPerPixel = exFbGray.color.channels * 1 ∧
    exFbGray.width * exFbGray.color.bytesPerPixel ≤ exFbGray.color.pitch ∧
    exFbGray.height * exFbGray.color.pitch ≤ (exMemGray.heap 7).length ∧
    (∃ buf, writeU8 (exMemGray.heap 7) 0 (castU8 (r * 255)) = some buf ∧
      writeU8 buf 1 (castU8 (g * 255)) = none) ∧
    clearColorPixel exFbGray.color { r := r, g := g, b := b, a := a } 0 0 (exMemGray.heap 7)
      = none ∧
    clear exMemGray (exClear r g b a d true cd) = none := by
  refine ⟨rfl, by decide, by decide, ⟨_, rfl, rfl⟩, rfl, rfl⟩

end Izg
